import Mathlib

/-!
# Verification of the msg-event-bus listener registry and dispatch engines

Shallow embedding of the core of the `msg-event-bus` repository:

* `src/events/listeners.py` — the listener registry (`EventListeners`),
* `src/events/abc/bus.py` — the shared bus base (`_BaseEventBus`,
  `AbstractEventBus`) including add-time validation,
* `src/events/bus/basic_bus.py` — the blocking engine (`EventBus`),
* `src/events/bus/async_bus.py` — the cooperative engine (`AsyncEventBus`),
* `src/events/bus/threaded_bus.py` — the queue/pool engine (`ThreadedEventBus`).

The repository also ships a flat legacy module `src/events/event_bus.py`
duplicating these classes; its dispatch logic is textually identical to the
`events/bus` package (modulo the `on_dispatch_error` / `error_callback` field
name), so the embedding below covers both copies except where noted.

Python dicts are modelled as functions into `Option`, so that deleting an
entry (`none`) is observably different from an entry holding an empty
sequence (`some []`).  Python callables are modelled as opaque identities
(functions compare by object identity in the source, `_EventListener.__eq__`
compares callbacks only).  Machine behaviour of a callback when invoked is
supplied as a parameter `B : Callback → CbOutcome`.
-/

namespace MsgEventBus

/-- A Python callable as the registry sees it: an opaque identity plus the
one attribute the buses inspect at registration time
(`inspect.iscoroutinefunction`, `src/events/abc/bus.py` line 159). -/
structure Callback where
  id : Nat
  isCoroutineFunction : Bool := false
deriving DecidableEq, Repr

/-- `_EventListener` (`src/events/listeners.py` lines 22–40): a callback
paired with its integer priority.  `__eq__` compares callbacks only;
`__lt__` compares priorities only. -/
structure Listener where
  callback : Callback
  priority : Int
deriving DecidableEq, Repr

/-- `listener in listeners` / `list.remove` use `_EventListener.__eq__`,
which compares the `callback` fields only. -/
def containsListener (cb : Callback) (ls : List Listener) : Bool :=
  ls.any fun l => decide (l.callback = cb)

/-- `listeners.remove(listener)` (`src/events/listeners.py` lines 102, 127):
removes the first element equal to the probe, where equality is
`_EventListener.__eq__`, i.e. callback identity. -/
def removeListener (cb : Callback) : List Listener → List Listener
  | [] => []
  | l :: ls => if l.callback = cb then ls else l :: removeListener cb ls

/-- `bisect.insort(listeners, listener)` (`src/events/listeners.py` line 105).
`insort` = `insort_right`: on a list sorted by `_EventListener.__lt__`
(priority), it inserts the new listener after every element whose priority is
not greater, which on a sorted list is this linear insertion. -/
def insort (x : Listener) : List Listener → List Listener
  | [] => [x]
  | y :: ys => if x.priority < y.priority then x :: y :: ys else y :: insort x ys

/-- `itertools.groupby(listeners, key=priority)` as used by
`EventListeners._update_cache` (`src/events/listeners.py` lines 151–157):
maximal runs of consecutive equal-priority listeners, each run rendered as
the tuple of its bare callbacks. -/
def groupByPriority : List Listener → List (List Callback)
  | [] => []
  | l :: ls =>
    (l.callback :: (ls.takeWhile fun m => decide (m.priority = l.priority)).map (·.callback))
      :: groupByPriority (ls.dropWhile fun m => decide (m.priority = l.priority))
termination_by ls => ls.length
decreasing_by
  simp only [List.length_cons]
  exact Nat.lt_succ_of_le (List.dropWhile_sublist _).length_le

/-- The priority of the first listener of each `groupByPriority` run (the
`priority` key produced by `groupby`).  Used to state the ordering of the
cached groups, which carry bare callbacks only. -/
def runHeads : List Listener → List Int
  | [] => []
  | l :: ls => l.priority :: runHeads (ls.dropWhile fun m => decide (m.priority = l.priority))
termination_by ls => ls.length
decreasing_by
  simp only [List.length_cons]
  exact Nat.lt_succ_of_le (List.dropWhile_sublist _).length_le

/-- Pointwise update of a dict modelled as a function into `Option`;
`f[k] = v` is `updateFn f k (some v)` and `del f[k]` is `updateFn f k none`. -/
def updateFn {v : Type} (f : String → Option v) (k : String) (x : Option v) :
    String → Option v :=
  fun e => if e = k then x else f e

/-- The priority argument of `add_event_callback` as Python receives it:
omitted (`None`), an `int`, or a value of some other type (carrying the
type name used in the `TypeError` message). -/
inductive PyPriority where
  | omitted
  | int (n : Int)
  | nonInt (tyname : String)
deriving DecidableEq, Repr

/-- `EventListeners` (`src/events/listeners.py` lines 43–55): the default
priority and the two dicts.  The lock `_listener_lock` only serialises
mutation; in this sequential model each operation is a whole-state function,
which is exactly the atomicity the lock provides. -/
structure EventListeners where
  default_priority : Int
  sorted_listeners : String → Option (List Listener)
  cached_listeners : String → Option (List (List Callback))

/-- A freshly constructed registry: both dicts empty. -/
def EventListeners.init (dp : Int) : EventListeners :=
  ⟨dp, fun _ => none, fun _ => none⟩

/-- `EventListeners.priority` (`src/events/listeners.py` lines 57–62):
default `None`, then reject non-`int` with a `TypeError`. -/
def EventListeners.priorityOf (s : EventListeners) : PyPriority → Except String Int
  | .omitted => .ok s.default_priority
  | .int n => .ok n
  | .nonInt t => .error ("Priority must be an int, not " ++ t)

/-- `EventListeners.get_event_callbacks` (`src/events/listeners.py`
lines 64–75): `self._cached_listeners.get(event) or tuple()`. -/
def EventListeners.get_event_callbacks (s : EventListeners) (event : String) :
    List (List Callback) :=
  (s.cached_listeners event).getD []

/-- `EventListeners._update_cache` (`src/events/listeners.py` lines 139–157). -/
def EventListeners.update_cache (s : EventListeners) (event : String)
    (listeners : List Listener) : EventListeners :=
  { s with cached_listeners := updateFn s.cached_listeners event (some (groupByPriority listeners)) }

/-- The body of `EventListeners.add_event_callback` after the priority has
been validated (`src/events/listeners.py` lines 89–109): ensure the event's
list exists, remove the older listener for the same callback if present,
`insort` the new listener, regenerate the cache. -/
def EventListeners.add_apply (s : EventListeners) (event : String)
    (callback : Callback) (p : Int) : EventListeners :=
  let listeners := (s.sorted_listeners event).getD []
  let listeners :=
    if containsListener callback listeners then removeListener callback listeners
    else listeners
  let listeners := insort ⟨callback, p⟩ listeners
  let s2 : EventListeners :=
    { s with sorted_listeners := updateFn s.sorted_listeners event (some listeners) }
  s2.update_cache event listeners

/-- `EventListeners.add_event_callback` (`src/events/listeners.py`
lines 77–109): validate the priority first (`TypeError` before any state is
touched), then mutate under the lock.  (`unwrap_func` only unwraps
`staticmethod` wrappers and is the identity on the opaque callbacks modelled
here.) -/
def EventListeners.add_event_callback (s : EventListeners) (event : String)
    (callback : Callback) (priority : PyPriority) : Except String EventListeners :=
  match s.priorityOf priority with
  | .error msg => .error msg
  | .ok p => .ok (s.add_apply event callback p)

/-- `EventListeners.remove_event_callback` (`src/events/listeners.py`
lines 111–137).  The walrus `if listeners := ...get(event):` skips both a
missing entry and (unreachably) an empty one; when the removal empties the
list, both dict entries are deleted. -/
def EventListeners.remove_event_callback (s : EventListeners) (event : String)
    (callback : Callback) : EventListeners :=
  match s.sorted_listeners event with
  | none => s
  | some ls =>
    if ls.isEmpty then s
    else if containsListener callback ls then
      let ls2 := removeListener callback ls
      let s1 : EventListeners :=
        { s with sorted_listeners := updateFn s.sorted_listeners event (some ls2) }
      let s2 := s1.update_cache event ls2
      if ls2.isEmpty then
        { s2 with
          sorted_listeners := updateFn s2.sorted_listeners event none,
          cached_listeners := updateFn s2.cached_listeners event none }
      else s2
    else s

/-- A registry mutation with a valid integer priority, as quantified over by
the spec's "for all sequences of add/remove". -/
inductive RegOp where
  | add (event : String) (callback : Callback) (priority : Int)
  | remove (event : String) (callback : Callback)
deriving DecidableEq, Repr

/-- Apply one operation.  `add` with an `int` priority never raises, so the
`Except` is immediately dischargeable. -/
def applyOp (s : EventListeners) : RegOp → EventListeners
  | .add e cb p =>
    match s.add_event_callback e cb (.int p) with
    | .ok s2 => s2
    | .error _ => s
  | .remove e cb => s.remove_event_callback e cb

/-- Apply a sequence of registry operations in order. -/
def applyOps (s : EventListeners) (ops : List RegOp) : EventListeners :=
  ops.foldl applyOp s

/-- Listener lists are kept sorted ascending by priority. -/
def SortedByPriority (ls : List Listener) : Prop :=
  ls.Pairwise fun a b => a.priority ≤ b.priority

/-- No two listeners of one event share a callback identity. -/
def NodupCallbacks (ls : List Listener) : Prop :=
  ls.Pairwise fun a b => a.callback ≠ b.callback

/-- Well-formedness of a registry state: each registered event has a
non-empty, priority-sorted, callback-duplicate-free listener list, and the
cache is exactly the grouped view of it; absent events have no cache entry. -/
def EventListeners.WF (s : EventListeners) : Prop :=
  ∀ e, match s.sorted_listeners e with
    | none => s.cached_listeners e = none
    | some ls =>
      ls ≠ [] ∧ SortedByPriority ls ∧ NodupCallbacks ls ∧
        s.cached_listeners e = some (groupByPriority ls)

/-! ## Dispatch engines

Callback machine behaviour is a parameter `B : Behavior`.  Executions are
recorded as traces of invocations and error-handler calls, paired with the
exception (if any) that escaped the dispatch to its caller. -/

/-- The `*args`/`**kwargs` of one `emit` call; the engines never inspect
them, so the payload values are opaque. -/
structure EmitArgs where
  pos : List Nat
  kw : List (String × Nat)
deriving DecidableEq, Repr

/-- The arguments one callback invocation receives: either the emitted
arguments (`callback(*args, **kwargs)`), or the synthetic meta-event payload
(`callback(event, args, kwargs)` — the event name and the packed
argument collections, passed positionally by
`self._dispatch_event('event', event, args, kwargs)`). -/
inductive CallArgs where
  | user (a : EmitArgs)
  | metaPayload (event : String) (a : EmitArgs)
deriving DecidableEq, Repr

/-- Exceptions as the dispatch code distinguishes them: `KeyboardInterrupt`
(a `BaseException` that is not an `Exception`), `MemoryError` (an `Exception`
subclass), and ordinary `Exception`s (opaque identity `n`). -/
inductive Exc where
  | keyboardInterrupt
  | memoryError
  | error (n : Nat)
deriving DecidableEq, Repr

/-- Whether `except Exception` catches the exception: everything here except
`KeyboardInterrupt`. -/
def Exc.isException : Exc → Bool
  | .keyboardInterrupt => false
  | _ => true

/-- Whether `except (KeyboardInterrupt, MemoryError)` catches the exception
(`ThreadedEventBus._dispatch_event`). -/
def Exc.isThreadFatal : Exc → Bool
  | .keyboardInterrupt => true
  | .memoryError => true
  | _ => false

/-- An `Exception`-class exception, as surfaced by an awaited coroutine and
captured by `asyncio.gather(..., return_exceptions=True)`.  (An awaited
`KeyboardInterrupt` crashes the asyncio task machinery itself and is outside
this model; no claim depends on it.) -/
inductive ExcE where
  | memoryError
  | error (n : Nat)
deriving DecidableEq, Repr

def ExcE.toExc : ExcE → Exc
  | .memoryError => .memoryError
  | .error n => .error n

/-- How an awaited future settles: a value (with its Python truthiness) or a
captured `Exception`. -/
inductive AwaitOutcome where
  | ret (truthy : Bool) (v : Nat)
  | raise (e : ExcE)
deriving DecidableEq, Repr

/-- What invoking a callback does: return a non-awaitable value (with its
truthiness), raise synchronously, or return an awaitable that later settles
as `r`. -/
inductive CbOutcome where
  | ret (truthy : Bool) (v : Nat)
  | raise (e : Exc)
  | awaitable (r : AwaitOutcome)
deriving DecidableEq, Repr

/-- What the error handler receives: an exception, or (through the async
engine's `filter(None, results)`) a plain non-exception result value. -/
inductive ErrVal where
  | exc (e : Exc)
  | val (truthy : Bool) (v : Nat)
deriving DecidableEq, Repr

/-- Python truthiness of an entry of `results`: exception instances are
truthy; values carry their own truthiness.  `filter(None, results)` keeps
exactly the truthy entries. -/
def ErrVal.isTruthy : ErrVal → Bool
  | .exc _ => true
  | .val t _ => t

/-- One call of the configured error handler
(`error_callback(event, error, args, kwargs)`). -/
structure HandlerCall where
  event : String
  error : ErrVal
  args : CallArgs
deriving DecidableEq, Repr

/-- One observable step of a dispatch: a callback invocation or an error
handler call. -/
inductive TraceEv where
  | invoke (c : Callback) (a : CallArgs)
  | handle (h : HandlerCall)
deriving DecidableEq, Repr

/-- The machine behaviour of callbacks, supplied as a parameter. -/
abbrev Behavior := Callback → CbOutcome

/-- The invocations of a trace, in order. -/
def invokesOf (t : List TraceEv) : List (Callback × CallArgs) :=
  t.filterMap fun ev =>
    match ev with
    | .invoke c a => some (c, a)
    | _ => none

/-- The error-handler calls of a trace, in order. -/
def handlesOf (t : List TraceEv) : List HandlerCall :=
  t.filterMap fun ev =>
    match ev with
    | .handle h => some h
    | _ => none

/-- Inner loop of the blocking `EventBus._dispatch_event`
(`src/events/bus/basic_bus.py` lines 32–40): invoke each callback of a
group; `except KeyboardInterrupt: raise` re-raises, `except Exception`
routes to the error handler and continues.  A returned value (awaitable or
not) is discarded. -/
def blockingRunCallbacks (B : Behavior) (event : String) (a : CallArgs) :
    List Callback → List TraceEv × Option Exc
  | [] => ([], none)
  | c :: cs =>
    match B c with
    | .raise e =>
      if e.isException then
        let r := blockingRunCallbacks B event a cs
        (.invoke c a :: .handle ⟨event, .exc e, a⟩ :: r.1, r.2)
      else ([.invoke c a], some e)
    | _ =>
      let r := blockingRunCallbacks B event a cs
      (.invoke c a :: r.1, r.2)

/-- The blocking `EventBus._dispatch_event` over the cached groups: groups
in ascending priority order, an escaping exception abandons the remaining
groups. -/
def blockingDispatchEvent (B : Behavior) (event : String) (a : CallArgs) :
    List (List Callback) → List TraceEv × Option Exc
  | [] => ([], none)
  | g :: gs =>
    let r := blockingRunCallbacks B event a g
    match r.2 with
    | some e => (r.1, some e)
    | none =>
      let r2 := blockingDispatchEvent B event a gs
      (r.1 ++ r2.1, r2.2)

/-- `EventBus.emit` (`src/events/bus/basic_bus.py` lines 20–30): dispatch
the synthetic meta-event `"event"` with payload `(event, args, kwargs)`,
then the named event with the original arguments.  An exception escaping the
meta dispatch propagates before the named dispatch starts. -/
def EventBus.emit (B : Behavior) (s : EventListeners) (event : String)
    (a : EmitArgs) : List TraceEv × Option Exc :=
  let r1 := blockingDispatchEvent B "event" (.metaPayload event a)
    (s.get_event_callbacks "event")
  match r1.2 with
  | some e => (r1.1, some e)
  | none =>
    let r2 := blockingDispatchEvent B event (.user a) (s.get_event_callbacks event)
    (r1.1 ++ r2.1, r2.2)

/-- Synchronous kick-off phase of one group in
`AsyncEventBus._dispatch_event` (`src/events/bus/async_bus.py` lines 42–50):
invoke every callback; collect awaitables into `futures` and synchronous
`Exception`s into `errors`; `KeyboardInterrupt` re-raises immediately.
Returns (trace, errors, futures, escaping exception). -/
def asyncSyncPhase (B : Behavior) (a : CallArgs) :
    List Callback → List TraceEv × List ErrVal × List AwaitOutcome × Option Exc
  | [] => ([], [], [], none)
  | c :: cs =>
    match B c with
    | .raise e =>
      if e.isException then
        let r := asyncSyncPhase B a cs
        (.invoke c a :: r.1, .exc e :: r.2.1, r.2.2.1, r.2.2.2)
      else ([.invoke c a], [], [], some e)
    | .awaitable f =>
      let r := asyncSyncPhase B a cs
      (.invoke c a :: r.1, r.2.1, f :: r.2.2.1, r.2.2.2)
    | .ret _ _ =>
      let r := asyncSyncPhase B a cs
      (.invoke c a :: r.1, r.2.1, r.2.2.1, r.2.2.2)

/-- `await asyncio.gather(*futures, return_exceptions=True)`: the settled
results in the order the futures were collected — each a value or a captured
`Exception`. -/
def gatherResults (fs : List AwaitOutcome) : List ErrVal :=
  fs.map fun f =>
    match f with
    | .ret t v => .val t v
    | .raise e => .exc e.toExc

/-- The `for error in errors:` loop of `AsyncEventBus._dispatch_event`
(`src/events/bus/async_bus.py` lines 58–62): re-raise on a
`KeyboardInterrupt` entry (unreachable — sync `KeyboardInterrupt` was
re-raised earlier and `errors` holds `Exception`s and leaked values;
NB the source's bare `raise` there would actually surface a
`RuntimeError`), otherwise call the error handler. -/
def asyncHandleErrors (event : String) (a : CallArgs) :
    List ErrVal → List TraceEv × Option Exc
  | [] => ([], none)
  | e :: es =>
    if e = .exc .keyboardInterrupt then ([], some .keyboardInterrupt)
    else
      let r := asyncHandleErrors event a es
      (.handle ⟨event, e, a⟩ :: r.1, r.2)

/-- One group of `AsyncEventBus._dispatch_event`: kick off synchronously,
gather the collected futures, append `filter(None, results)` to the errors,
then run the error loop. -/
def asyncRunGroup (B : Behavior) (event : String) (a : CallArgs)
    (g : List Callback) : List TraceEv × Option Exc :=
  let ph := asyncSyncPhase B a g
  match ph.2.2.2 with
  | some e => (ph.1, some e)
  | none =>
    let errors := ph.2.1 ++ (gatherResults ph.2.2.1).filter ErrVal.isTruthy
    let r := asyncHandleErrors event a errors
    (ph.1 ++ r.1, r.2)

/-- `AsyncEventBus._dispatch_event` over the cached groups: each group fully
settles (and its errors are all forwarded) before the next group starts. -/
def asyncDispatchEvent (B : Behavior) (event : String) (a : CallArgs) :
    List (List Callback) → List TraceEv × Option Exc
  | [] => ([], none)
  | g :: gs =>
    let r := asyncRunGroup B event a g
    match r.2 with
    | some e => (r.1, some e)
    | none =>
      let r2 := asyncDispatchEvent B event a gs
      (r.1 ++ r2.1, r2.2)

/-- The `for future in as_completed(futures):` loop of
`ThreadedEventBus._dispatch_event` (`src/events/bus/threaded_bus.py`
lines 150–158), processing the group's task results in completion order:
`except (KeyboardInterrupt, MemoryError): raise`, `except Exception` routes
to the error handler.  The completion order is scheduler-chosen, so it is a
parameter (theorems quantify over permutations of the group). -/
def threadedProcessResults (B : Behavior) (event : String) (a : CallArgs) :
    List Callback → List TraceEv × Option Exc
  | [] => ([], none)
  | c :: cs =>
    match B c with
    | .raise e =>
      if e.isThreadFatal then ([], some e)
      else
        let r := threadedProcessResults B event a cs
        (.handle ⟨event, .exc e, a⟩ :: r.1, r.2)
    | _ => threadedProcessResults B event a cs

/-- One group of `ThreadedEventBus._dispatch_event`: every callback of the
group is submitted to the pool (and hence invoked), then the results are
awaited in completion order `order`. -/
def threadedRunGroup (B : Behavior) (event : String) (a : CallArgs)
    (g : List Callback) (order : List Callback) : List TraceEv × Option Exc :=
  let r := threadedProcessResults B event a order
  (g.map (fun c => .invoke c a) ++ r.1, r.2)

/-- `ThreadedEventBus._dispatch_event` over the cached groups; `sched g` is
the completion order of group `g`'s tasks. -/
def threadedDispatchEvent (B : Behavior) (event : String) (a : CallArgs)
    (sched : List Callback → List Callback) :
    List (List Callback) → List TraceEv × Option Exc
  | [] => ([], none)
  | g :: gs =>
    let r := threadedRunGroup B event a g (sched g)
    match r.2 with
    | some e => (r.1, some e)
    | none =>
      let r2 := threadedDispatchEvent B event a sched gs
      (r.1 ++ r2.1, r2.2)

/-- Processing of one dequeued emission by `ThreadedEventBus._dispatch_loop`
(`src/events/bus/threaded_bus.py` lines 135–138): the meta-event `"event"`
with payload `(event, args, kwargs)` first, then the named event. -/
def threadedProcessItem (B : Behavior) (sched : List Callback → List Callback)
    (s : EventListeners) (item : String × EmitArgs) : List TraceEv × Option Exc :=
  let r1 := threadedDispatchEvent B "event" (.metaPayload item.1 item.2) sched
    (s.get_event_callbacks "event")
  match r1.2 with
  | some e => (r1.1, some e)
  | none =>
    let r2 := threadedDispatchEvent B item.1 (.user item.2) sched
      (s.get_event_callbacks item.1)
    (r1.1 ++ r2.1, r2.2)

/-- `AbstractEventBus.add_event_callback` (`src/events/abc/bus.py`
lines 146–162), shared by the blocking and threaded engines: reject a
coroutine function with a `TypeError`, then delegate to the registry (which
validates the priority before touching any state).  The async bus base does
not perform the coroutine check. -/
def AbstractEventBus.add_event_callback (s : EventListeners) (event : String)
    (callback : Callback) (priority : PyPriority) : Except String EventListeners :=
  if callback.isCoroutineFunction then
    .error "Event callback cannot be a coroutine function."
  else s.add_event_callback event callback priority

/-- `ThreadedEventBus` queue/running state (`src/events/bus/threaded_bus.py`
lines 46–52): the registry, the FIFO dispatch queue and the running flag.
The queue holds `(event, args, kwargs)` items. -/
structure ThreadedEventBus where
  listeners : EventListeners
  dispatch_queue : List (String × EmitArgs)
  is_running : Bool

/-- `ThreadedEventBus.emit` (`src/events/bus/threaded_bus.py` lines 61–74):
under `_running_lock`, return silently while stopped, else
`put_nowait((event, args, kwargs))`. -/
def ThreadedEventBus.emit (s : ThreadedEventBus) (event : String)
    (a : EmitArgs) : ThreadedEventBus :=
  if s.is_running then
    { s with dispatch_queue := s.dispatch_queue ++ [(event, a)] }
  else s

/-- Derived form for theorem statements: the trace the blocking engine
produces for one callback whose raised exception (if any) is non-fatal. -/
def blockingCbTrace (B : Behavior) (event : String) (a : CallArgs)
    (c : Callback) : List TraceEv :=
  match B c with
  | .raise e =>
    if e.isException then [.invoke c a, .handle ⟨event, .exc e, a⟩]
    else [.invoke c a]
  | _ => [.invoke c a]

/-- Derived form for theorem statements: the error-handler call a callback
gives rise to on the blocking engine, if it raises. -/
def failCallOf (B : Behavior) (event : String) (a : CallArgs)
    (c : Callback) : Option HandlerCall :=
  match B c with
  | .raise e => some ⟨event, .exc e, a⟩
  | _ => none

/-- Derived form: the listener list `add_apply` stores for the event — the
old list with the callback's previous entry removed (if present) and the new
listener inserted by `insort`. -/
def addResultList (s : EventListeners) (e : String) (cb : Callback)
    (p : Int) : List Listener :=
  insort ⟨cb, p⟩
    (if containsListener cb ((s.sorted_listeners e).getD [])
     then removeListener cb ((s.sorted_listeners e).getD [])
     else (s.sorted_listeners e).getD [])

/-- Derived form: the synchronous-phase error a callback contributes on the
cooperative engine (an `Exception`-class raise), if any. -/
def syncErrOf (B : Behavior) (c : Callback) : Option ErrVal :=
  match B c with
  | .raise e => if e.isException then some (.exc e) else none
  | _ => none

/-- Derived form: the awaitable a callback contributes to the cooperative
engine's `futures` list, if any. -/
def awaitOutcomeOf (B : Behavior) (c : Callback) : Option AwaitOutcome :=
  match B c with
  | .awaitable f => some f
  | _ => none

/-- Derived form: the `errors` list of one cooperative-engine group after it
settles — the synchronous `Exception`s followed by `filter(None, results)`
over the gathered futures. -/
def asyncGroupErrors (B : Behavior) (g : List Callback) : List ErrVal :=
  g.filterMap (syncErrOf B)
    ++ (gatherResults (g.filterMap (awaitOutcomeOf B))).filter ErrVal.isTruthy

/-! ## Registry lemmas -/

theorem mem_insort {x a : Listener} :
    ∀ {ls : List Listener}, a ∈ insort x ls ↔ a = x ∨ a ∈ ls
  | [] => by simp [insort]
  | y :: ys => by
    by_cases h : x.priority < y.priority
    · simp [insort, h]
    · simp only [insort, h, if_neg, ite_false, List.mem_cons,
        @mem_insort x a ys]
      tauto

theorem insort_ne_nil (x : Listener) : ∀ ls : List Listener, insort x ls ≠ []
  | [] => by simp [insort]
  | y :: ys => by
    by_cases h : x.priority < y.priority <;> simp [insort, h]

theorem insort_perm (x : Listener) :
    ∀ ls : List Listener, List.Perm (insort x ls) (x :: ls)
  | [] => List.Perm.refl _
  | y :: ys => by
    by_cases h : x.priority < y.priority
    · simp [insort, h]
    · simpa [insort, h] using ((insort_perm x ys).cons y).trans
        (List.Perm.swap x y ys)

theorem sorted_insort {x : Listener} :
    ∀ {ls : List Listener}, SortedByPriority ls → SortedByPriority (insort x ls)
  | [], _ => by simp [insort, SortedByPriority]
  | y :: ys, h => by
    rw [SortedByPriority, List.pairwise_cons] at h
    obtain ⟨hy, hys⟩ := h
    by_cases hlt : x.priority < y.priority
    · rw [SortedByPriority, insort, if_pos hlt, List.pairwise_cons]
      refine ⟨?_, ?_⟩
      · intro b hb
        rcases List.mem_cons.mp hb with rfl | hb
        · exact le_of_lt hlt
        · exact le_trans (le_of_lt hlt) (hy b hb)
      · rw [List.pairwise_cons]; exact ⟨hy, hys⟩
    · rw [SortedByPriority, insort, if_neg hlt, List.pairwise_cons]
      refine ⟨?_, sorted_insort hys⟩
      intro b hb
      rcases mem_insort.mp hb with rfl | hb
      · exact le_of_not_lt hlt
      · exact hy b hb

theorem nodup_insort {x : Listener} :
    ∀ {ls : List Listener}, NodupCallbacks ls →
      (∀ a ∈ ls, a.callback ≠ x.callback) → NodupCallbacks (insort x ls)
  | [], _, _ => by simp [insort, NodupCallbacks]
  | y :: ys, h, hx => by
    rw [NodupCallbacks, List.pairwise_cons] at h
    obtain ⟨hy, hys⟩ := h
    by_cases hlt : x.priority < y.priority
    · rw [NodupCallbacks, insort, if_pos hlt, List.pairwise_cons]
      refine ⟨?_, ?_⟩
      · intro b hb
        exact (hx b hb).symm
      · rw [List.pairwise_cons]; exact ⟨hy, hys⟩
    · rw [NodupCallbacks, insort, if_neg hlt, List.pairwise_cons]
      refine ⟨?_, nodup_insort hys fun a ha => hx a (List.mem_cons_of_mem y ha)⟩
      intro b hb
      rcases mem_insort.mp hb with rfl | hb
      · exact hx y (List.mem_cons_self y ys)
      · exact hy b hb

theorem removeListener_sublist (cb : Callback) :
    ∀ ls : List Listener, List.Sublist (removeListener cb ls) ls
  | [] => List.Sublist.refl []
  | l :: ls => by
    by_cases h : l.callback = cb
    · rw [removeListener, if_pos h]
      exact List.sublist_cons_self l ls
    · rw [removeListener, if_neg h]
      exact (removeListener_sublist cb ls).cons₂ l

theorem sorted_removeListener {cb : Callback} {ls : List Listener}
    (h : SortedByPriority ls) : SortedByPriority (removeListener cb ls) :=
  List.Pairwise.sublist (removeListener_sublist cb ls) h

theorem nodup_removeListener {cb : Callback} {ls : List Listener}
    (h : NodupCallbacks ls) : NodupCallbacks (removeListener cb ls) :=
  List.Pairwise.sublist (removeListener_sublist cb ls) h

theorem removeListener_callback_ne {cb : Callback} :
    ∀ {ls : List Listener}, NodupCallbacks ls →
      ∀ a ∈ removeListener cb ls, a.callback ≠ cb
  | [], _ => by simp [removeListener]
  | l :: ls, h => by
    rw [NodupCallbacks, List.pairwise_cons] at h
    obtain ⟨hl, hls⟩ := h
    by_cases hc : l.callback = cb
    · rw [removeListener, if_pos hc]
      intro a ha
      exact fun hcontra => (hl a ha) (hc ▸ hcontra ▸ rfl)
    · rw [removeListener, if_neg hc]
      intro a ha
      rcases List.mem_cons.mp ha with rfl | ha
      · exact hc
      · exact removeListener_callback_ne hls a ha

theorem removeListener_of_not_contains {cb : Callback} :
    ∀ {ls : List Listener}, containsListener cb ls = false →
      removeListener cb ls = ls
  | [], _ => rfl
  | l :: ls, h => by
    rw [containsListener, List.any_cons, Bool.or_eq_false_iff] at h
    obtain ⟨h1, h2⟩ := h
    rw [removeListener, if_neg (by simpa using h1),
      removeListener_of_not_contains h2]

theorem not_contains_iff {cb : Callback} {ls : List Listener} :
    containsListener cb ls = false ↔ ∀ a ∈ ls, a.callback ≠ cb := by
  rw [containsListener]
  simp

theorem runHeads_cons (l : Listener) (ls : List Listener) :
    runHeads (l :: ls) =
      l.priority :: runHeads (ls.dropWhile fun m => decide (m.priority = l.priority)) := by
  rw [runHeads]

theorem groupByPriority_cons (l : Listener) (ls : List Listener) :
    groupByPriority (l :: ls) =
      (l.callback :: (ls.takeWhile fun m => decide (m.priority = l.priority)).map (·.callback))
        :: groupByPriority (ls.dropWhile fun m => decide (m.priority = l.priority)) := by
  rw [groupByPriority]

theorem chain_lt_runHeads :
    ∀ ls : List Listener, SortedByPriority ls →
      List.Chain' (· < ·) (runHeads ls)
  | [], _ => by simp [runHeads]
  | l :: ls, h => by
    rw [runHeads_cons]
    have hy : ∀ b ∈ ls, l.priority ≤ b.priority := (List.pairwise_cons.mp h).1
    have hls : SortedByPriority ls := (List.pairwise_cons.mp h).2
    have hrest : SortedByPriority (ls.dropWhile fun m => decide (m.priority = l.priority)) :=
      List.Pairwise.sublist (List.dropWhile_sublist _) hls
    have ih := chain_lt_runHeads (ls.dropWhile fun m => decide (m.priority = l.priority)) hrest
    cases hr : ls.dropWhile fun m => decide (m.priority = l.priority) with
    | nil => simp [runHeads]
    | cons m ms =>
      rw [hr] at ih
      rw [runHeads_cons] at ih ⊢
      refine List.chain'_cons.mpr ⟨?_, ih⟩
      have h1 : decide (m.priority = l.priority) = false := by
        have h0 := List.head?_dropWhile_not
          (fun m : Listener => decide (m.priority = l.priority)) ls
        rw [hr] at h0
        simpa using h0
      have hne : m.priority ≠ l.priority := by simpa using h1
      have hm : m ∈ ls := by
        have hsub : List.Sublist (ls.dropWhile fun m => decide (m.priority = l.priority)) ls :=
          List.dropWhile_sublist _
        refine hsub.subset ?_
        rw [hr]
        exact List.mem_cons_self m ms
      exact lt_of_le_of_ne (hy m hm) (Ne.symm hne)
termination_by ls => ls.length
decreasing_by
  simp only [List.length_cons]
  exact Nat.lt_succ_of_le (List.dropWhile_sublist _).length_le

theorem flatten_groupByPriority :
    ∀ ls : List Listener, (groupByPriority ls).flatten = ls.map (·.callback)
  | [] => by simp [groupByPriority]
  | l :: ls => by
    rw [groupByPriority_cons, List.flatten_cons,
      flatten_groupByPriority (ls.dropWhile fun m => decide (m.priority = l.priority))]
    simp only [List.cons_append, ← List.map_append, List.takeWhile_append_dropWhile,
      List.map_cons]
termination_by ls => ls.length
decreasing_by
  simp only [List.length_cons]
  exact Nat.lt_succ_of_le (List.dropWhile_sublist _).length_le

theorem groupByPriority_ne_nil :
    ∀ ls : List Listener, ∀ g ∈ groupByPriority ls, g ≠ []
  | [] => by simp [groupByPriority]
  | l :: ls => by
    rw [groupByPriority_cons]
    intro g hg
    rcases List.mem_cons.mp hg with rfl | hg
    · simp
    · exact groupByPriority_ne_nil
        (ls.dropWhile fun m => decide (m.priority = l.priority)) g hg
termination_by ls => ls.length
decreasing_by
  simp only [List.length_cons]
  exact Nat.lt_succ_of_le (List.dropWhile_sublist _).length_le

theorem length_groupByPriority_eq_length_runHeads :
    ∀ ls : List Listener, (groupByPriority ls).length = (runHeads ls).length
  | [] => by simp [groupByPriority, runHeads]
  | l :: ls => by
    rw [groupByPriority_cons, runHeads_cons]
    simp only [List.length_cons]
    rw [length_groupByPriority_eq_length_runHeads
      (ls.dropWhile fun m => decide (m.priority = l.priority))]
termination_by ls => ls.length
decreasing_by
  simp only [List.length_cons]
  exact Nat.lt_succ_of_le (List.dropWhile_sublist _).length_le

/-! ## Registry invariant preservation -/

theorem wf_init (dp : Int) : (EventListeners.init dp).WF := fun _ => rfl

theorem wf_sorted_getD {s : EventListeners} (h : s.WF) (e : String) :
    SortedByPriority ((s.sorted_listeners e).getD []) := by
  have h2 := h e
  cases hs : s.sorted_listeners e with
  | none => simp [SortedByPriority]
  | some ls =>
    rw [hs] at h2
    simpa using h2.2.1

theorem wf_nodup_getD {s : EventListeners} (h : s.WF) (e : String) :
    NodupCallbacks ((s.sorted_listeners e).getD []) := by
  have h2 := h e
  cases hs : s.sorted_listeners e with
  | none => simp [NodupCallbacks]
  | some ls =>
    rw [hs] at h2
    simpa using h2.2.2.1

theorem add_apply_eq (s : EventListeners) (e : String) (cb : Callback) (p : Int) :
    s.add_apply e cb p =
      { s with
        sorted_listeners := updateFn s.sorted_listeners e (some (addResultList s e cb p)),
        cached_listeners :=
          updateFn s.cached_listeners e (some (groupByPriority (addResultList s e cb p))) } := rfl

theorem sorted_addResultList {s : EventListeners} (h : s.WF) (e : String)
    (cb : Callback) (p : Int) : SortedByPriority (addResultList s e cb p) := by
  rw [addResultList]
  by_cases hc : containsListener cb ((s.sorted_listeners e).getD [])
  · rw [if_pos hc]
    exact sorted_insort (sorted_removeListener (wf_sorted_getD h e))
  · rw [if_neg hc]
    exact sorted_insort (wf_sorted_getD h e)

theorem nodup_addResultList {s : EventListeners} (h : s.WF) (e : String)
    (cb : Callback) (p : Int) : NodupCallbacks (addResultList s e cb p) := by
  rw [addResultList]
  by_cases hc : containsListener cb ((s.sorted_listeners e).getD [])
  · rw [if_pos hc]
    exact nodup_insort (nodup_removeListener (wf_nodup_getD h e))
      (removeListener_callback_ne (wf_nodup_getD h e))
  · rw [if_neg hc]
    exact nodup_insort (wf_nodup_getD h e)
      (not_contains_iff.mp (Bool.not_eq_true _ ▸ (by simpa using hc)))

theorem wf_add_apply {s : EventListeners} (h : s.WF) (e : String)
    (cb : Callback) (p : Int) : (s.add_apply e cb p).WF := by
  intro e2
  rw [add_apply_eq]
  by_cases he : e2 = e
  · subst he
    simp only [updateFn, if_pos rfl]
    exact ⟨insort_ne_nil _ _, sorted_addResultList h e2 cb p,
      nodup_addResultList h e2 cb p, rfl⟩
  · simp only [updateFn, if_neg he]
    exact h e2

theorem updateFn_pos {v : Type} (f : String → Option v) (k : String)
    (x : Option v) : updateFn f k x k = x := by
  simp [updateFn]

theorem updateFn_neg {v : Type} (f : String → Option v) {e k : String}
    (h : e ≠ k) (x : Option v) : updateFn f k x e = f e := by
  simp [updateFn, h]

theorem addResultList_eq_remove_insort (s : EventListeners) (e : String)
    (cb : Callback) (p : Int) :
    addResultList s e cb p =
      insort ⟨cb, p⟩ (removeListener cb ((s.sorted_listeners e).getD [])) := by
  rw [addResultList]
  by_cases hc : containsListener cb ((s.sorted_listeners e).getD [])
  · rw [if_pos hc]
  · rw [if_neg hc, removeListener_of_not_contains (by simpa using hc)]

theorem remove_eq_self_of_none {s : EventListeners} {e : String} (cb : Callback)
    (hs : s.sorted_listeners e = none) : s.remove_event_callback e cb = s := by
  simp only [EventListeners.remove_event_callback, hs]

theorem remove_eq_self_of_not_contains {s : EventListeners} {e : String}
    {cb : Callback} {ls : List Listener} (hs : s.sorted_listeners e = some ls)
    (hc : containsListener cb ls = false) : s.remove_event_callback e cb = s := by
  simp only [EventListeners.remove_event_callback, hs, hc]
  simp

theorem remove_eq_delete {s : EventListeners} {e : String} {cb : Callback}
    {ls : List Listener} (hs : s.sorted_listeners e = some ls)
    (hemp : ls.isEmpty = false) (hc : containsListener cb ls = true)
    (h2 : (removeListener cb ls).isEmpty = true) :
    s.remove_event_callback e cb =
      { s with
        sorted_listeners := updateFn s.sorted_listeners e none,
        cached_listeners := updateFn s.cached_listeners e none } := by
  simp only [EventListeners.remove_event_callback, hs, hemp, hc, h2,
    EventListeners.update_cache]
  simp only [Bool.false_eq_true, if_false, if_true]
  congr 1 <;> funext x <;> by_cases hx : x = e <;> simp [updateFn, hx]

theorem remove_eq_update {s : EventListeners} {e : String} {cb : Callback}
    {ls : List Listener} (hs : s.sorted_listeners e = some ls)
    (hemp : ls.isEmpty = false) (hc : containsListener cb ls = true)
    (h2 : (removeListener cb ls).isEmpty = false) :
    s.remove_event_callback e cb =
      { s with
        sorted_listeners := updateFn s.sorted_listeners e (some (removeListener cb ls)),
        cached_listeners :=
          updateFn s.cached_listeners e (some (groupByPriority (removeListener cb ls))) } := by
  simp only [EventListeners.remove_event_callback, hs, hemp, hc, h2,
    EventListeners.update_cache]
  simp

theorem wf_remove {s : EventListeners} (h : s.WF) (e : String)
    (cb : Callback) : (s.remove_event_callback e cb).WF := by
  cases hs : s.sorted_listeners e with
  | none => rw [remove_eq_self_of_none cb hs]; exact h
  | some ls =>
    cases hc : containsListener cb ls with
    | false => rw [remove_eq_self_of_not_contains hs hc]; exact h
    | true =>
      have hemp : ls.isEmpty = false := by
        have h2 := h e
        rw [hs] at h2
        simpa [List.isEmpty_iff] using h2.1
      cases hemp2 : (removeListener cb ls).isEmpty with
      | true =>
        rw [remove_eq_delete hs hemp hc hemp2]
        intro e2
        by_cases he : e2 = e
        · subst he
          simp [updateFn]
        · simp only [updateFn, if_neg he]
          exact h e2
      | false =>
        rw [remove_eq_update hs hemp hc hemp2]
        intro e2
        by_cases he : e2 = e
        · subst he
          simp only [updateFn, if_pos rfl]
          have h2 := h e2
          rw [hs] at h2
          exact ⟨by simpa [List.isEmpty_iff] using hemp2,
            sorted_removeListener h2.2.1, nodup_removeListener h2.2.2.1, rfl⟩
        · simp only [updateFn, if_neg he]
          exact h e2

theorem wf_applyOp {s : EventListeners} (h : s.WF) (op : RegOp) :
    (applyOp s op).WF := by
  cases op with
  | add e cb p => exact wf_add_apply h e cb p
  | remove e cb => exact wf_remove h e cb

theorem wf_applyOps_from : ∀ (ops : List RegOp) (s : EventListeners),
    s.WF → (applyOps s ops).WF
  | [], _, hs => hs
  | op :: ops, s, hs => wf_applyOps_from ops (applyOp s op) (wf_applyOp hs op)

theorem wf_applyOps (dp : Int) (ops : List RegOp) :
    (applyOps (EventListeners.init dp) ops).WF :=
  wf_applyOps_from ops _ (wf_init dp)

theorem get_eq_groupByPriority {s : EventListeners} (h : s.WF) (e : String) :
    s.get_event_callbacks e = groupByPriority ((s.sorted_listeners e).getD []) := by
  have h2 := h e
  cases hs : s.sorted_listeners e with
  | none =>
    rw [hs] at h2
    simp [EventListeners.get_event_callbacks, h2, groupByPriority]
  | some ls =>
    rw [hs] at h2
    simp [EventListeners.get_event_callbacks, h2.2.2.2]

theorem insort_eq_takeWhile_dropWhile (x : Listener) :
    ∀ ls : List Listener,
      insort x ls =
        ls.takeWhile (fun y => !decide (x.priority < y.priority))
          ++ x :: ls.dropWhile (fun y => !decide (x.priority < y.priority))
  | [] => by simp [insort]
  | y :: ys => by
    by_cases h : x.priority < y.priority
    · simp [insort, h, List.takeWhile_cons, List.dropWhile_cons]
    · simp [insort, h, List.takeWhile_cons, List.dropWhile_cons,
        insort_eq_takeWhile_dropWhile x ys]

/-! ## Claims about the listener registry -/

/-- **C1.** For every sequence of add/remove operations on a registry (with
valid integer priorities), `get_event_callbacks` returns the grouped view of
the event's sorted listener list: the group priorities (`runHeads`) are
strictly ascending, no event's listeners contain two entries with the same
callback (and hence the returned callbacks are duplicate-free), and the
groups are exactly the maximal runs of consecutive same-priority listeners
(`groupByPriority`), partitioning the listener sequence in order into
non-empty groups, one per run. -/
theorem c1_groups_sorted_strict_and_nodup (dp : Int) (ops : List RegOp)
    (e : String) :
    let s := applyOps (EventListeners.init dp) ops
    let ls := (s.sorted_listeners e).getD []
    s.get_event_callbacks e = groupByPriority ls ∧
    SortedByPriority ls ∧
    NodupCallbacks ls ∧
    List.Chain' (· < ·) (runHeads ls) ∧
    (s.get_event_callbacks e).flatten = ls.map (·.callback) ∧
    ((s.get_event_callbacks e).flatten).Nodup ∧
    (∀ g ∈ s.get_event_callbacks e, g ≠ []) ∧
    (s.get_event_callbacks e).length = (runHeads ls).length := by
  intro s ls
  have hwf : s.WF := wf_applyOps dp ops
  have hcache := get_eq_groupByPriority hwf e
  have hsorted := wf_sorted_getD hwf e
  have hnodup := wf_nodup_getD hwf e
  refine ⟨hcache, hsorted, hnodup, chain_lt_runHeads ls hsorted, ?_, ?_, ?_, ?_⟩
  · rw [hcache, flatten_groupByPriority]
  · rw [hcache, flatten_groupByPriority]
    show (ls.map (·.callback)).Pairwise (· ≠ ·)
    rw [List.pairwise_map]
    exact hnodup
  · rw [hcache]
    exact groupByPriority_ne_nil ls
  · rw [hcache]
    exact length_groupByPriority_eq_length_runHeads ls

/-- Witness for C1, applying the theorem at a concrete one-add history and
discharging the group-membership hypothesis of the non-empty-groups
conjunct. -/
theorem c1_witness : [(⟨0, false⟩ : Callback)] ≠ [] := by
  have h := c1_groups_sorted_strict_and_nodup 0 [.add "a" ⟨0, false⟩ 1] "a"
  refine h.2.2.2.2.2.2.1 [⟨0, false⟩] ?_
  simp [applyOps, applyOp, EventListeners.add_event_callback,
    EventListeners.priorityOf, EventListeners.add_apply, addResultList,
    EventListeners.update_cache, EventListeners.get_event_callbacks, updateFn,
    EventListeners.init, containsListener, insort, groupByPriority]

/-- **C2.** Re-adding a callback already registered for an event under a new
priority stores the old list with the old entry removed and the new listener
stably inserted; the callback then appears exactly once.  `insort` places
the new listener after every entry whose priority is not greater (stability:
after existing entries of equal priority).  Concretely,
`add(e,f,5); add(e,f,1)` leaves `f` only in the priority-1 group. -/
theorem c2_readd_replaces_without_duplicate (dp : Int) (ops : List RegOp)
    (e : String) (f : Callback) (p : Int) :
    let s := applyOps (EventListeners.init dp) ops
    let after := applyOp s (.add e f p)
    after.sorted_listeners e =
      some (insort ⟨f, p⟩ (removeListener f ((s.sorted_listeners e).getD []))) ∧
    (((after.sorted_listeners e).getD []).map (·.callback)).count f = 1 ∧
    insort ⟨f, p⟩ (removeListener f ((s.sorted_listeners e).getD [])) =
      (removeListener f ((s.sorted_listeners e).getD [])).takeWhile
          (fun y => !decide (p < y.priority))
        ++ ⟨f, p⟩ :: (removeListener f ((s.sorted_listeners e).getD [])).dropWhile
          (fun y => !decide (p < y.priority)) ∧
    (∀ y ∈ (removeListener f ((s.sorted_listeners e).getD [])).takeWhile
        (fun y => !decide (p < y.priority)), y.priority ≤ p) ∧
    (applyOps (EventListeners.init dp)
      [.add e f 5, .add e f 1]).get_event_callbacks e = [[f]] ∧
    runHeads (((applyOps (EventListeners.init dp)
      [.add e f 5, .add e f 1]).sorted_listeners e).getD []) = [1] := by
  intro s after
  have hwf : s.WF := wf_applyOps dp ops
  have h1 : after.sorted_listeners e =
      some (insort ⟨f, p⟩ (removeListener f ((s.sorted_listeners e).getD []))) := by
    show (s.add_apply e f p).sorted_listeners e = _
    rw [add_apply_eq]
    rw [show ({ s with
        sorted_listeners := updateFn s.sorted_listeners e (some (addResultList s e f p)),
        cached_listeners := updateFn s.cached_listeners e
          (some (groupByPriority (addResultList s e f p))) } :
        EventListeners).sorted_listeners = updateFn s.sorted_listeners e
          (some (addResultList s e f p)) from rfl]
    rw [updateFn_pos, addResultList_eq_remove_insort]
  refine ⟨h1, ?_, insort_eq_takeWhile_dropWhile ⟨f, p⟩ _, ?_, ?_, ?_⟩
  · rw [h1, Option.getD_some]
    have habs : ∀ a ∈ removeListener f ((s.sorted_listeners e).getD []),
        a.callback ≠ f := removeListener_callback_ne (wf_nodup_getD hwf e)
    have hperm := (insort_perm ⟨f, p⟩
      (removeListener f ((s.sorted_listeners e).getD []))).map (·.callback)
    rw [hperm.count_eq, List.map_cons]
    have hnotmem : f ∉ (removeListener f ((s.sorted_listeners e).getD [])).map
        (·.callback) := by
      rw [List.mem_map]
      rintro ⟨a, ha, haf⟩
      exact habs a ha haf
    rw [show (⟨f, p⟩ : Listener).callback = f from rfl, List.count_cons_self,
      List.count_eq_zero.mpr hnotmem]
  · intro y hy
    have h3 : ¬ p < y.priority := by simpa using List.mem_takeWhile_imp hy
    exact le_of_not_lt h3
  · simp [applyOps, applyOp, EventListeners.add_event_callback,
      EventListeners.priorityOf, EventListeners.add_apply, addResultList,
      EventListeners.update_cache, EventListeners.get_event_callbacks, updateFn,
      EventListeners.init, containsListener, removeListener, insort,
      groupByPriority]
  · simp [applyOps, applyOp, EventListeners.add_event_callback,
      EventListeners.priorityOf, EventListeners.add_apply, addResultList,
      EventListeners.update_cache, updateFn, EventListeners.init,
      containsListener, removeListener, insort, runHeads]

/-- Witness for C2 at a concrete registry: re-adding under priority 5 after
one other listener, and discharging the stability conjunct's membership
hypothesis. -/
theorem c2_witness :
    ((((applyOp (applyOps (EventListeners.init 0) [.add "e" ⟨1, false⟩ 2])
        (.add "e" ⟨0, false⟩ 5)).sorted_listeners "e").getD []).map
          (·.callback)).count ⟨0, false⟩ = 1 ∧
    ((⟨⟨1, false⟩, 2⟩ : Listener)).priority ≤ 5 := by
  have h := c2_readd_replaces_without_duplicate 0 [.add "e" ⟨1, false⟩ 2] "e"
    ⟨0, false⟩ 5
  refine ⟨h.2.1, h.2.2.2.1 ⟨⟨1, false⟩, 2⟩ ?_⟩
  simp [applyOps, applyOp, EventListeners.add_event_callback,
    EventListeners.priorityOf, EventListeners.add_apply, addResultList,
    EventListeners.update_cache, updateFn, EventListeners.init,
    containsListener, removeListener, insort]

/-- **C9.** `remove(event, callback)` for an unknown event or an
unregistered callback is a no-op returning the state unchanged (and it never
raises — `remove_event_callback` is a total function); when the removal
empties the event's listener list, both the registry entry and the cache
entry are deleted; and no event is ever left mapped to an empty shell. -/
theorem c9_remove_noop_and_cleanup (dp : Int) (ops : List RegOp) (e : String)
    (cb : Callback) :
    let s := applyOps (EventListeners.init dp) ops
    ((∀ a ∈ (s.sorted_listeners e).getD [], a.callback ≠ cb) →
        s.remove_event_callback e cb = s) ∧
    (∀ ls, s.sorted_listeners e = some ls → removeListener cb ls = [] →
        (s.remove_event_callback e cb).sorted_listeners e = none ∧
        (s.remove_event_callback e cb).cached_listeners e = none) ∧
    (∀ e2, (s.remove_event_callback e cb).sorted_listeners e2 ≠ some [] ∧
        (s.remove_event_callback e cb).cached_listeners e2 ≠ some []) := by
  intro s
  have hwf : s.WF := wf_applyOps dp ops
  refine ⟨?_, ?_, ?_⟩
  · intro habs
    cases hs : s.sorted_listeners e with
    | none => exact remove_eq_self_of_none cb hs
    | some ls =>
      refine remove_eq_self_of_not_contains hs (not_contains_iff.mpr ?_)
      intro a ha
      refine habs a ?_
      rw [hs]
      simpa using ha
  · intro ls hs hrem
    have h2 := hwf e
    rw [hs] at h2
    have hne : ls ≠ [] := h2.1
    have hemp : ls.isEmpty = false := by simpa [List.isEmpty_iff] using hne
    have hc : containsListener cb ls = true := by
      by_contra hcf
      have hcf2 : containsListener cb ls = false := by simpa using hcf
      rw [removeListener_of_not_contains hcf2] at hrem
      exact hne hrem
    have hemp2 : (removeListener cb ls).isEmpty = true := by simp [hrem]
    rw [remove_eq_delete hs hemp hc hemp2]
    exact ⟨updateFn_pos _ _ _, updateFn_pos _ _ _⟩
  · intro e2
    have h2 := wf_remove hwf e cb e2
    cases hs2 : (s.remove_event_callback e cb).sorted_listeners e2 with
    | none =>
      rw [hs2] at h2
      refine ⟨by simp, ?_⟩
      rw [h2]
      simp
    | some ls2 =>
      rw [hs2] at h2
      refine ⟨fun hcontra => h2.1 (Option.some.inj hcontra), ?_⟩
      rw [h2.2.2.2]
      intro hcontra
      have hflat : groupByPriority ls2 = [] := Option.some.inj hcontra
      cases ls2 with
      | nil => exact h2.1 rfl
      | cons a as =>
        rw [groupByPriority_cons] at hflat
        exact absurd hflat (List.cons_ne_nil _ _)

/-! ## Blocking engine lemmas -/

theorem exc_isException_of_ne_ki {e : Exc} (h : e ≠ .keyboardInterrupt) :
    e.isException = true := by
  cases e with
  | keyboardInterrupt => exact absurd rfl h
  | memoryError => rfl
  | error n => rfl

theorem exc_eq_ki_of_not_isException {e : Exc} (h : e.isException = false) :
    e = .keyboardInterrupt := by
  cases e with
  | keyboardInterrupt => rfl
  | memoryError => exact absurd h (by simp [Exc.isException])
  | error n => exact absurd h (by simp [Exc.isException])

theorem invokesOf_append (t1 t2 : List TraceEv) :
    invokesOf (t1 ++ t2) = invokesOf t1 ++ invokesOf t2 :=
  List.filterMap_append t1 t2 _

theorem handlesOf_append (t1 t2 : List TraceEv) :
    handlesOf (t1 ++ t2) = handlesOf t1 ++ handlesOf t2 :=
  List.filterMap_append t1 t2 _

theorem invokesOf_invoke_cons (c : Callback) (a : CallArgs) (t : List TraceEv) :
    invokesOf (.invoke c a :: t) = (c, a) :: invokesOf t := rfl

theorem invokesOf_handle_cons (h : HandlerCall) (t : List TraceEv) :
    invokesOf (.handle h :: t) = invokesOf t := rfl

theorem handlesOf_invoke_cons (c : Callback) (a : CallArgs) (t : List TraceEv) :
    handlesOf (.invoke c a :: t) = handlesOf t := rfl

theorem handlesOf_handle_cons (h : HandlerCall) (t : List TraceEv) :
    handlesOf (.handle h :: t) = h :: handlesOf t := rfl

theorem invokesOf_cbTrace (B : Behavior) (event : String) (a : CallArgs)
    (c : Callback) : invokesOf (blockingCbTrace B event a c) = [(c, a)] := by
  cases hB : B c with
  | raise e =>
    by_cases he : e.isException = true <;>
      simp [blockingCbTrace, hB, he, invokesOf]
  | ret t v => simp [blockingCbTrace, hB, invokesOf]
  | awaitable r => simp [blockingCbTrace, hB, invokesOf]

theorem handlesOf_cbTrace (B : Behavior) (event : String) (a : CallArgs)
    (c : Callback) (hc : B c ≠ .raise .keyboardInterrupt) :
    handlesOf (blockingCbTrace B event a c) = (failCallOf B event a c).toList := by
  cases hB : B c with
  | raise e =>
    have he : e.isException = true :=
      exc_isException_of_ne_ki (fun hcontra => hc (by rw [hB, hcontra]))
    simp [blockingCbTrace, hB, he, handlesOf, failCallOf]
  | ret t v => simp [blockingCbTrace, hB, handlesOf, failCallOf]
  | awaitable r => simp [blockingCbTrace, hB, handlesOf, failCallOf]

theorem blockingRunCallbacks_no_ki (B : Behavior) (event : String) (a : CallArgs) :
    ∀ cs : List Callback, (∀ c ∈ cs, B c ≠ .raise .keyboardInterrupt) →
      blockingRunCallbacks B event a cs =
        ((cs.map (blockingCbTrace B event a)).flatten, none)
  | [], _ => rfl
  | c :: cs, h => by
    have hc : B c ≠ .raise .keyboardInterrupt := h c (List.mem_cons_self c cs)
    have ih := blockingRunCallbacks_no_ki B event a cs
      (fun c2 hc2 => h c2 (List.mem_cons_of_mem c hc2))
    cases hB : B c with
    | raise e =>
      have he : e.isException = true :=
        exc_isException_of_ne_ki (fun hcontra => hc (by rw [hB, hcontra]))
      simp [blockingRunCallbacks, hB, he, ih, blockingCbTrace]
    | ret t v => simp [blockingRunCallbacks, hB, ih, blockingCbTrace]
    | awaitable r => simp [blockingRunCallbacks, hB, ih, blockingCbTrace]

theorem blockingRunCallbacks_ki (B : Behavior) (event : String) (a : CallArgs)
    (c : Callback) (hc : B c = .raise .keyboardInterrupt) :
    ∀ pre post : List Callback,
      (∀ c2 ∈ pre, B c2 ≠ .raise .keyboardInterrupt) →
      blockingRunCallbacks B event a (pre ++ c :: post) =
        ((pre.map (blockingCbTrace B event a)).flatten ++ [.invoke c a],
          some .keyboardInterrupt)
  | [], post, _ => by
    simp [blockingRunCallbacks, hc, Exc.isException]
  | c2 :: pre, post, h => by
    have hc2 : B c2 ≠ .raise .keyboardInterrupt := h c2 (List.mem_cons_self c2 pre)
    have ih := blockingRunCallbacks_ki B event a c hc pre post
      (fun x hx => h x (List.mem_cons_of_mem c2 hx))
    cases hB : B c2 with
    | raise e =>
      have he : e.isException = true :=
        exc_isException_of_ne_ki (fun hcontra => hc2 (by rw [hB, hcontra]))
      simp [blockingRunCallbacks, hB, he, ih, blockingCbTrace]
    | ret t v => simp [blockingRunCallbacks, hB, ih, blockingCbTrace]
    | awaitable r => simp [blockingRunCallbacks, hB, ih, blockingCbTrace]

theorem blockingRunCallbacks_append_some (B : Behavior) (event : String)
    (a : CallArgs) (x : Exc) :
    ∀ (xs ys : List Callback),
      (blockingRunCallbacks B event a xs).2 = some x →
      blockingRunCallbacks B event a (xs ++ ys) = blockingRunCallbacks B event a xs
  | [], ys, h => by simp [blockingRunCallbacks] at h
  | c :: xs, ys, h => by
    cases hB : B c with
    | raise e =>
      by_cases he : e.isException = true
      · rw [blockingRunCallbacks, hB] at h
        simp only [he, if_true] at h
        have ih := blockingRunCallbacks_append_some B event a x xs ys h
        simp [blockingRunCallbacks, hB, he, ih]
      · have he2 : e.isException = false := by simpa using he
        simp [blockingRunCallbacks, hB, he2]
    | ret t v =>
      rw [blockingRunCallbacks, hB] at h
      have ih := blockingRunCallbacks_append_some B event a x xs ys h
      simp [blockingRunCallbacks, hB, ih]
    | awaitable r =>
      rw [blockingRunCallbacks, hB] at h
      have ih := blockingRunCallbacks_append_some B event a x xs ys h
      simp [blockingRunCallbacks, hB, ih]

theorem blockingRunCallbacks_append_none (B : Behavior) (event : String)
    (a : CallArgs) :
    ∀ (xs ys : List Callback),
      (blockingRunCallbacks B event a xs).2 = none →
      blockingRunCallbacks B event a (xs ++ ys) =
        ((blockingRunCallbacks B event a xs).1 ++ (blockingRunCallbacks B event a ys).1,
          (blockingRunCallbacks B event a ys).2)
  | [], ys, _ => by simp [blockingRunCallbacks]
  | c :: xs, ys, h => by
    cases hB : B c with
    | raise e =>
      by_cases he : e.isException = true
      · rw [blockingRunCallbacks, hB] at h
        simp only [he, if_true] at h
        have ih := blockingRunCallbacks_append_none B event a xs ys h
        simp [blockingRunCallbacks, hB, he, ih]
      · have he2 : e.isException = false := by simpa using he
        rw [blockingRunCallbacks, hB] at h
        simp [he2] at h
    | ret t v =>
      rw [blockingRunCallbacks, hB] at h
      have ih := blockingRunCallbacks_append_none B event a xs ys h
      simp [blockingRunCallbacks, hB, ih]
    | awaitable r =>
      rw [blockingRunCallbacks, hB] at h
      have ih := blockingRunCallbacks_append_none B event a xs ys h
      simp [blockingRunCallbacks, hB, ih]

theorem blockingDispatchEvent_eq_flatten (B : Behavior) (event : String)
    (a : CallArgs) :
    ∀ gs : List (List Callback),
      blockingDispatchEvent B event a gs = blockingRunCallbacks B event a gs.flatten
  | [] => rfl
  | g :: gs => by
    have ih := blockingDispatchEvent_eq_flatten B event a gs
    rw [blockingDispatchEvent, List.flatten_cons]
    cases hr : (blockingRunCallbacks B event a g).2 with
    | some e =>
      rw [blockingRunCallbacks_append_some B event a e g gs.flatten hr]
      rw [show blockingRunCallbacks B event a g =
        ((blockingRunCallbacks B event a g).1, (blockingRunCallbacks B event a g).2)
        from rfl, hr]
    | none =>
      rw [blockingRunCallbacks_append_none B event a g gs.flatten hr, ih]

theorem invokesOf_cbTrace_flatten (B : Behavior) (event : String) (a : CallArgs) :
    ∀ cs : List Callback,
      invokesOf ((cs.map (blockingCbTrace B event a)).flatten) =
        cs.map (fun c => (c, a))
  | [] => rfl
  | c :: cs => by
    rw [List.map_cons, List.flatten_cons, invokesOf_append,
      invokesOf_cbTrace_flatten B event a cs, invokesOf_cbTrace, List.map_cons,
      List.singleton_append]

theorem handlesOf_cbTrace_flatten (B : Behavior) (event : String) (a : CallArgs) :
    ∀ cs : List Callback, (∀ c ∈ cs, B c ≠ .raise .keyboardInterrupt) →
      handlesOf ((cs.map (blockingCbTrace B event a)).flatten) =
        cs.filterMap (failCallOf B event a)
  | [], _ => rfl
  | c :: cs, h => by
    have hc : B c ≠ .raise .keyboardInterrupt := h c (List.mem_cons_self c cs)
    have ih := handlesOf_cbTrace_flatten B event a cs
      (fun c2 hc2 => h c2 (List.mem_cons_of_mem c hc2))
    rw [List.map_cons, List.flatten_cons, handlesOf_append, ih,
      handlesOf_cbTrace B event a c hc, List.filterMap_cons]
    cases hf : failCallOf B event a c with
    | none => simp
    | some b => simp

theorem handlesOf_run_ne_ki (B : Behavior) (event : String) (a : CallArgs) :
    ∀ cs : List Callback, ∀ hc ∈ handlesOf (blockingRunCallbacks B event a cs).1,
      hc.error ≠ .exc .keyboardInterrupt
  | [] => by simp [blockingRunCallbacks, handlesOf]
  | c :: cs => by
    intro hc hmem
    cases hB : B c with
    | raise e =>
      by_cases he : e.isException = true
      · rw [blockingRunCallbacks, hB] at hmem
        simp only [he, if_true] at hmem
        rw [handlesOf_invoke_cons, handlesOf_handle_cons] at hmem
        rcases List.mem_cons.mp hmem with rfl | hmem2
        · intro hcontra
          have hek : e = Exc.keyboardInterrupt := by simpa using hcontra
          rw [hek] at he
          simp [Exc.isException] at he
        · exact handlesOf_run_ne_ki B event a cs hc hmem2
      · have he2 : e.isException = false := by simpa using he
        rw [blockingRunCallbacks, hB] at hmem
        simp only [he2, Bool.false_eq_true, if_false] at hmem
        simp [handlesOf] at hmem
    | ret t v =>
      rw [blockingRunCallbacks, hB] at hmem
      rw [handlesOf_invoke_cons] at hmem
      exact handlesOf_run_ne_ki B event a cs hc hmem
    | awaitable r =>
      rw [blockingRunCallbacks, hB] at hmem
      rw [handlesOf_invoke_cons] at hmem
      exact handlesOf_run_ne_ki B event a cs hc hmem

theorem blockingRun_fatal_ki (B : Behavior) (event : String) (a : CallArgs) :
    ∀ (cs : List Callback) (x : Exc),
      (blockingRunCallbacks B event a cs).2 = some x → x = .keyboardInterrupt
  | [], x => by simp [blockingRunCallbacks]
  | c :: cs, x => by
    intro h
    cases hB : B c with
    | raise e =>
      by_cases he : e.isException = true
      · rw [blockingRunCallbacks, hB] at h
        simp only [he, if_true] at h
        exact blockingRun_fatal_ki B event a cs x h
      · have he2 : e.isException = false := by simpa using he
        rw [blockingRunCallbacks, hB] at h
        simp only [he2, Bool.false_eq_true, if_false] at h
        have hx : e = x := Option.some.inj h
        exact hx ▸ exc_eq_ki_of_not_isException he2
    | ret t v =>
      rw [blockingRunCallbacks, hB] at h
      exact blockingRun_fatal_ki B event a cs x h
    | awaitable r =>
      rw [blockingRunCallbacks, hB] at h
      exact blockingRun_fatal_ki B event a cs x h


/-! ## Cooperative (async) engine lemmas -/

theorem asyncSyncPhase_no_ki (B : Behavior) (a : CallArgs) :
    ∀ g : List Callback, (∀ c ∈ g, B c ≠ .raise .keyboardInterrupt) →
      asyncSyncPhase B a g =
        (g.map (fun c => .invoke c a), g.filterMap (syncErrOf B),
          g.filterMap (awaitOutcomeOf B), none)
  | [], _ => rfl
  | c :: g, h => by
    have hc : B c ≠ .raise .keyboardInterrupt := h c (List.mem_cons_self c g)
    have ih := asyncSyncPhase_no_ki B a g
      (fun x hx => h x (List.mem_cons_of_mem c hx))
    cases hB : B c with
    | raise e =>
      have he : e.isException = true :=
        exc_isException_of_ne_ki (fun hco => hc (by rw [hB, hco]))
      simp [asyncSyncPhase, hB, he, ih, syncErrOf, awaitOutcomeOf,
        List.filterMap_cons]
    | ret t v =>
      simp [asyncSyncPhase, hB, ih, syncErrOf, awaitOutcomeOf, List.filterMap_cons]
    | awaitable f =>
      simp [asyncSyncPhase, hB, ih, syncErrOf, awaitOutcomeOf, List.filterMap_cons]

theorem asyncSyncPhase_handles_nil (B : Behavior) (a : CallArgs) :
    ∀ g : List Callback, handlesOf (asyncSyncPhase B a g).1 = []
  | [] => rfl
  | c :: g => by
    have ih := asyncSyncPhase_handles_nil B a g
    cases hB : B c with
    | raise e =>
      by_cases he : e.isException = true
      · simp [asyncSyncPhase, hB, he, handlesOf_invoke_cons, ih]
      · have he2 : e.isException = false := by simpa using he
        simp [asyncSyncPhase, hB, he2, handlesOf]
    | ret t v => simp [asyncSyncPhase, hB, handlesOf_invoke_cons, ih]
    | awaitable f => simp [asyncSyncPhase, hB, handlesOf_invoke_cons, ih]

theorem asyncSyncPhase_fatal_ki (B : Behavior) (a : CallArgs) :
    ∀ (g : List Callback) (x : Exc),
      (asyncSyncPhase B a g).2.2.2 = some x → x = .keyboardInterrupt
  | [], x => by simp [asyncSyncPhase]
  | c :: g, x => by
    intro h
    cases hB : B c with
    | raise e =>
      by_cases he : e.isException = true
      · rw [asyncSyncPhase, hB] at h
        simp only [he, if_true] at h
        exact asyncSyncPhase_fatal_ki B a g x h
      · have he2 : e.isException = false := by simpa using he
        rw [asyncSyncPhase, hB] at h
        simp only [he2, Bool.false_eq_true, if_false] at h
        exact (Option.some.inj h) ▸ exc_eq_ki_of_not_isException he2
    | ret t v =>
      rw [asyncSyncPhase, hB] at h
      exact asyncSyncPhase_fatal_ki B a g x h
    | awaitable f =>
      rw [asyncSyncPhase, hB] at h
      exact asyncSyncPhase_fatal_ki B a g x h

theorem asyncSyncPhase_fatal_of_mem (B : Behavior) (a : CallArgs) :
    ∀ (g : List Callback) (c : Callback), c ∈ g →
      B c = .raise .keyboardInterrupt → (asyncSyncPhase B a g).2.2.2 ≠ none
  | [], c => by simp
  | y :: g, c => by
    intro hmem hki
    cases hB : B y with
    | raise e =>
      by_cases he : e.isException = true
      · have hyc : c ∈ g := by
          rcases List.mem_cons.mp hmem with rfl | hg
          · rw [hB] at hki
            have : e = Exc.keyboardInterrupt := by
              injection hki
            rw [this] at he
            simp [Exc.isException] at he
          · exact hg
        have ih := asyncSyncPhase_fatal_of_mem B a g c hyc hki
        simp [asyncSyncPhase, hB, he, ih]
      · have he2 : e.isException = false := by simpa using he
        simp [asyncSyncPhase, hB, he2]
    | ret t v =>
      have hyc : c ∈ g := by
        rcases List.mem_cons.mp hmem with rfl | hg
        · rw [hB] at hki; exact absurd hki (by simp)
        · exact hg
      have ih := asyncSyncPhase_fatal_of_mem B a g c hyc hki
      simp [asyncSyncPhase, hB, ih]
    | awaitable f =>
      have hyc : c ∈ g := by
        rcases List.mem_cons.mp hmem with rfl | hg
        · rw [hB] at hki; exact absurd hki (by simp)
        · exact hg
      have ih := asyncSyncPhase_fatal_of_mem B a g c hyc hki
      simp [asyncSyncPhase, hB, ih]

theorem asyncSyncPhase_errors_ne_ki (B : Behavior) (a : CallArgs) :
    ∀ g : List Callback, ∀ er ∈ (asyncSyncPhase B a g).2.1,
      er ≠ .exc .keyboardInterrupt
  | [] => by simp [asyncSyncPhase]
  | c :: g => by
    intro er hmem
    cases hB : B c with
    | raise e =>
      by_cases he : e.isException = true
      · rw [asyncSyncPhase, hB] at hmem
        simp only [he, if_true] at hmem
        rcases List.mem_cons.mp hmem with rfl | hmem2
        · intro hco
          have hek : e = Exc.keyboardInterrupt := by simpa using hco
          rw [hek] at he
          simp [Exc.isException] at he
        · exact asyncSyncPhase_errors_ne_ki B a g er hmem2
      · have he2 : e.isException = false := by simpa using he
        rw [asyncSyncPhase, hB] at hmem
        simp only [he2, Bool.false_eq_true, if_false] at hmem
        simp at hmem
    | ret t v =>
      rw [asyncSyncPhase, hB] at hmem
      exact asyncSyncPhase_errors_ne_ki B a g er hmem
    | awaitable f =>
      rw [asyncSyncPhase, hB] at hmem
      exact asyncSyncPhase_errors_ne_ki B a g er hmem

theorem gatherResults_ne_ki :
    ∀ fs : List AwaitOutcome, ∀ er ∈ gatherResults fs,
      er ≠ .exc .keyboardInterrupt := by
  intro fs er hmem
  rw [gatherResults, List.mem_map] at hmem
  rcases hmem with ⟨f, _, rfl⟩
  cases f with
  | ret t v => simp
  | raise e => cases e <;> simp [ExcE.toExc]

theorem asyncGroupErrors_ne_ki (B : Behavior) :
    ∀ g : List Callback, ∀ er ∈ asyncGroupErrors B g,
      er ≠ .exc .keyboardInterrupt := by
  intro g er hmem
  rw [asyncGroupErrors] at hmem
  rcases List.mem_append.mp hmem with hmem2 | hmem2
  · rw [List.mem_filterMap] at hmem2
    rcases hmem2 with ⟨c, _, hsync⟩
    rw [syncErrOf] at hsync
    cases hB : B c with
    | raise e =>
      rw [hB] at hsync
      by_cases he : e.isException = true
      · simp only [he, if_true] at hsync
        intro hco
        rw [← Option.some.inj hsync] at hco
        have hek : e = Exc.keyboardInterrupt := by simpa using hco
        rw [hek] at he
        simp [Exc.isException] at he
      · have he2 : e.isException = false := by simpa using he
        simp [he2] at hsync
    | ret t v => rw [hB] at hsync; simp at hsync
    | awaitable f => rw [hB] at hsync; simp at hsync
  · exact gatherResults_ne_ki _ er (List.mem_of_mem_filter hmem2)

theorem asyncHandleErrors_no_ki (event : String) (a : CallArgs) :
    ∀ es : List ErrVal, (∀ er ∈ es, er ≠ .exc .keyboardInterrupt) →
      asyncHandleErrors event a es =
        (es.map (fun er => .handle ⟨event, er, a⟩), none)
  | [], _ => rfl
  | er :: es, h => by
    have hne : er ≠ .exc .keyboardInterrupt := h er (List.mem_cons_self er es)
    have ih := asyncHandleErrors_no_ki event a es
      (fun x hx => h x (List.mem_cons_of_mem er hx))
    rw [asyncHandleErrors, if_neg hne, ih, List.map_cons]

theorem asyncHandleErrors_handles_ne_ki (event : String) (a : CallArgs) :
    ∀ es : List ErrVal, ∀ hc ∈ handlesOf (asyncHandleErrors event a es).1,
      hc.error ≠ .exc .keyboardInterrupt
  | [] => by simp [asyncHandleErrors, handlesOf]
  | er :: es => by
    intro hc hmem
    by_cases hki : er = ErrVal.exc .keyboardInterrupt
    · rw [asyncHandleErrors, if_pos hki] at hmem
      simp [handlesOf] at hmem
    · rw [asyncHandleErrors, if_neg hki] at hmem
      rw [handlesOf_handle_cons] at hmem
      rcases List.mem_cons.mp hmem with rfl | hmem2
      · exact hki
      · exact asyncHandleErrors_handles_ne_ki event a es hc hmem2

theorem asyncHandleErrors_fatal_ki (event : String) (a : CallArgs) :
    ∀ (es : List ErrVal) (x : Exc),
      (asyncHandleErrors event a es).2 = some x → x = .keyboardInterrupt
  | [], x => by simp [asyncHandleErrors]
  | er :: es, x => by
    intro h
    by_cases hki : er = ErrVal.exc .keyboardInterrupt
    · rw [asyncHandleErrors, if_pos hki] at h
      exact (Option.some.inj h).symm
    · rw [asyncHandleErrors, if_neg hki] at h
      exact asyncHandleErrors_fatal_ki event a es x h

theorem asyncRunGroup_no_ki (B : Behavior) (event : String) (a : CallArgs)
    (g : List Callback) (h : ∀ c ∈ g, B c ≠ .raise .keyboardInterrupt) :
    asyncRunGroup B event a g =
      (g.map (fun c => .invoke c a)
        ++ (asyncGroupErrors B g).map (fun er => .handle ⟨event, er, a⟩), none) := by
  rw [asyncRunGroup, asyncSyncPhase_no_ki B a g h]
  dsimp only
  rw [show (g.filterMap (syncErrOf B)
      ++ (gatherResults (g.filterMap (awaitOutcomeOf B))).filter ErrVal.isTruthy)
    = asyncGroupErrors B g from rfl]
  rw [asyncHandleErrors_no_ki event a _ (asyncGroupErrors_ne_ki B g)]

theorem asyncRunGroup_handles_ne_ki (B : Behavior) (event : String)
    (a : CallArgs) (g : List Callback) :
    ∀ hc ∈ handlesOf (asyncRunGroup B event a g).1,
      hc.error ≠ .exc .keyboardInterrupt := by
  intro hc hmem
  rw [asyncRunGroup] at hmem
  cases hph : (asyncSyncPhase B a g).2.2.2 with
  | some e =>
    rw [hph] at hmem
    simp only [] at hmem
    rw [asyncSyncPhase_handles_nil] at hmem
    simp at hmem
  | none =>
    rw [hph] at hmem
    simp only [] at hmem
    rw [handlesOf_append, asyncSyncPhase_handles_nil] at hmem
    simp only [List.nil_append] at hmem
    exact asyncHandleErrors_handles_ne_ki event a _ hc hmem

theorem asyncRunGroup_fatal_ki (B : Behavior) (event : String) (a : CallArgs)
    (g : List Callback) (x : Exc) :
    (asyncRunGroup B event a g).2 = some x → x = .keyboardInterrupt := by
  intro h
  rw [asyncRunGroup] at h
  cases hph : (asyncSyncPhase B a g).2.2.2 with
  | some e =>
    rw [hph] at h
    simp only [] at h
    exact (Option.some.inj h) ▸ asyncSyncPhase_fatal_ki B a g e hph
  | none =>
    rw [hph] at h
    simp only [] at h
    exact asyncHandleErrors_fatal_ki event a _ x h

theorem asyncRunGroup_fatal_of_mem (B : Behavior) (event : String)
    (a : CallArgs) (g : List Callback) (c : Callback) (hmem : c ∈ g)
    (hki : B c = .raise .keyboardInterrupt) :
    (asyncRunGroup B event a g).2 ≠ none := by
  rw [asyncRunGroup]
  cases hph : (asyncSyncPhase B a g).2.2.2 with
  | some e => simp
  | none => exact absurd hph (asyncSyncPhase_fatal_of_mem B a g c hmem hki)

theorem asyncDispatch_handles_ne_ki (B : Behavior) (event : String)
    (a : CallArgs) :
    ∀ gs : List (List Callback),
      ∀ hc ∈ handlesOf (asyncDispatchEvent B event a gs).1,
        hc.error ≠ .exc .keyboardInterrupt
  | [] => by simp [asyncDispatchEvent, handlesOf]
  | g :: gs => by
    intro hc hmem
    rw [asyncDispatchEvent] at hmem
    cases hr : (asyncRunGroup B event a g).2 with
    | some e =>
      rw [hr] at hmem
      simp only [] at hmem
      exact asyncRunGroup_handles_ne_ki B event a g hc hmem
    | none =>
      rw [hr] at hmem
      simp only [] at hmem
      rw [handlesOf_append] at hmem
      rcases List.mem_append.mp hmem with hmem2 | hmem2
      · exact asyncRunGroup_handles_ne_ki B event a g hc hmem2
      · exact asyncDispatch_handles_ne_ki B event a gs hc hmem2

theorem asyncDispatch_fatal_ki (B : Behavior) (event : String) (a : CallArgs) :
    ∀ (gs : List (List Callback)) (x : Exc),
      (asyncDispatchEvent B event a gs).2 = some x → x = .keyboardInterrupt
  | [], x => by simp [asyncDispatchEvent]
  | g :: gs, x => by
    intro h
    rw [asyncDispatchEvent] at h
    cases hr : (asyncRunGroup B event a g).2 with
    | some e =>
      rw [hr] at h
      simp only [] at h
      exact (Option.some.inj h) ▸ asyncRunGroup_fatal_ki B event a g e hr
    | none =>
      rw [hr] at h
      simp only [] at h
      exact asyncDispatch_fatal_ki B event a gs x h

theorem asyncDispatch_fatal_of_mem (B : Behavior) (event : String)
    (a : CallArgs) :
    ∀ (gs : List (List Callback)) (c : Callback), c ∈ gs.flatten →
      B c = .raise .keyboardInterrupt →
      (asyncDispatchEvent B event a gs).2 ≠ none
  | [], c => by simp
  | g :: gs, c => by
    intro hmem hki
    rw [List.flatten_cons] at hmem
    rw [asyncDispatchEvent]
    cases hr : (asyncRunGroup B event a g).2 with
    | some e => simp
    | none =>
      rcases List.mem_append.mp hmem with hmem2 | hmem2
      · exact absurd hr (asyncRunGroup_fatal_of_mem B event a g c hmem2 hki)
      · simp only []
        exact asyncDispatch_fatal_of_mem B event a gs c hmem2 hki

theorem asyncDispatch_no_ki (B : Behavior) (event : String) (a : CallArgs) :
    ∀ gs : List (List Callback),
      (∀ c ∈ gs.flatten, B c ≠ .raise .keyboardInterrupt) →
      asyncDispatchEvent B event a gs =
        ((gs.map (fun g => g.map (fun c => .invoke c a)
          ++ (asyncGroupErrors B g).map (fun er => .handle ⟨event, er, a⟩))).flatten,
          none)
  | [], _ => rfl
  | g :: gs, h => by
    have hg : ∀ c ∈ g, B c ≠ .raise .keyboardInterrupt := fun c hc =>
      h c (by rw [List.flatten_cons]; exact List.mem_append_left _ hc)
    have hgs : ∀ c ∈ gs.flatten, B c ≠ .raise .keyboardInterrupt := fun c hc =>
      h c (by rw [List.flatten_cons]; exact List.mem_append_right _ hc)
    have ih := asyncDispatch_no_ki B event a gs hgs
    rw [asyncDispatchEvent, asyncRunGroup_no_ki B event a g hg]
    simp only []
    rw [ih, List.map_cons, List.flatten_cons]

/-! ## Threaded engine lemmas -/

theorem exc_ne_of_not_threadFatal {e : Exc} (h : e.isThreadFatal = false) :
    e ≠ .keyboardInterrupt ∧ e ≠ .memoryError := by
  cases e with
  | keyboardInterrupt => exact absurd h (by simp [Exc.isThreadFatal])
  | memoryError => exact absurd h (by simp [Exc.isThreadFatal])
  | error n => exact ⟨by simp, by simp⟩

theorem handlesOf_invoke_map (a : CallArgs) :
    ∀ g : List Callback, handlesOf (g.map fun c => TraceEv.invoke c a) = []
  | [] => rfl
  | c :: g => by
    rw [List.map_cons, handlesOf_invoke_cons, handlesOf_invoke_map a g]

theorem threadedProcess_handles (B : Behavior) (event : String) (a : CallArgs) :
    ∀ order : List Callback,
      ∀ hc ∈ handlesOf (threadedProcessResults B event a order).1,
        hc.error ≠ .exc .keyboardInterrupt ∧ hc.error ≠ .exc .memoryError
  | [] => by simp [threadedProcessResults, handlesOf]
  | c :: cs => by
    intro hc hmem
    cases hB : B c with
    | raise e =>
      by_cases hf : e.isThreadFatal = true
      · rw [threadedProcessResults, hB] at hmem
        simp only [hf, if_true] at hmem
        simp [handlesOf] at hmem
      · have hf2 : e.isThreadFatal = false := by simpa using hf
        rw [threadedProcessResults, hB] at hmem
        simp only [hf2, Bool.false_eq_true, if_false] at hmem
        rw [handlesOf_handle_cons] at hmem
        rcases List.mem_cons.mp hmem with rfl | hmem2
        · refine ⟨?_, ?_⟩
          · intro hco
            have hek : e = Exc.keyboardInterrupt := by simpa using hco
            rw [hek] at hf2
            simp [Exc.isThreadFatal] at hf2
          · intro hco
            have hek : e = Exc.memoryError := by simpa using hco
            rw [hek] at hf2
            simp [Exc.isThreadFatal] at hf2
        · exact threadedProcess_handles B event a cs hc hmem2
    | ret t v =>
      rw [threadedProcessResults, hB] at hmem
      exact threadedProcess_handles B event a cs hc hmem
    | awaitable r =>
      rw [threadedProcessResults, hB] at hmem
      exact threadedProcess_handles B event a cs hc hmem

theorem threadedProcess_fatal (B : Behavior) (event : String) (a : CallArgs) :
    ∀ (order : List Callback) (x : Exc),
      (threadedProcessResults B event a order).2 = some x →
        x.isThreadFatal = true
  | [], x => by simp [threadedProcessResults]
  | c :: cs, x => by
    intro h
    cases hB : B c with
    | raise e =>
      by_cases hf : e.isThreadFatal = true
      · rw [threadedProcessResults, hB] at h
        simp only [hf, if_true] at h
        exact (Option.some.inj h) ▸ hf
      · have hf2 : e.isThreadFatal = false := by simpa using hf
        rw [threadedProcessResults, hB] at h
        simp only [hf2, Bool.false_eq_true, if_false] at h
        exact threadedProcess_fatal B event a cs x h
    | ret t v =>
      rw [threadedProcessResults, hB] at h
      exact threadedProcess_fatal B event a cs x h
    | awaitable r =>
      rw [threadedProcessResults, hB] at h
      exact threadedProcess_fatal B event a cs x h

theorem threadedProcess_fatal_of_mem (B : Behavior) (event : String)
    (a : CallArgs) :
    ∀ (order : List Callback) (c : Callback), c ∈ order →
      (∃ x, B c = .raise x ∧ x.isThreadFatal = true) →
      (threadedProcessResults B event a order).2 ≠ none
  | [], c => by simp
  | y :: cs, c => by
    intro hmem hfatal
    rcases hfatal with ⟨x, hBc, hx⟩
    cases hB : B y with
    | raise e =>
      by_cases hf : e.isThreadFatal = true
      · simp [threadedProcessResults, hB, hf]
      · have hf2 : e.isThreadFatal = false := by simpa using hf
        have hyc : c ∈ cs := by
          rcases List.mem_cons.mp hmem with rfl | hg
          · rw [hB] at hBc
            have hex : e = x := by injection hBc
            rw [hex] at hf2
            rw [hf2] at hx
            exact absurd hx (by simp)
          · exact hg
        have ih := threadedProcess_fatal_of_mem B event a cs c hyc ⟨x, hBc, hx⟩
        simp only [threadedProcessResults, hB, hf2, Bool.false_eq_true, if_false]
        exact ih
    | ret t v =>
      have hyc : c ∈ cs := by
        rcases List.mem_cons.mp hmem with rfl | hg
        · rw [hB] at hBc; exact absurd hBc (by simp)
        · exact hg
      have ih := threadedProcess_fatal_of_mem B event a cs c hyc ⟨x, hBc, hx⟩
      simp only [threadedProcessResults, hB]
      exact ih
    | awaitable r =>
      have hyc : c ∈ cs := by
        rcases List.mem_cons.mp hmem with rfl | hg
        · rw [hB] at hBc; exact absurd hBc (by simp)
        · exact hg
      have ih := threadedProcess_fatal_of_mem B event a cs c hyc ⟨x, hBc, hx⟩
      simp only [threadedProcessResults, hB]
      exact ih

theorem threadedRunGroup_handles (B : Behavior) (event : String) (a : CallArgs)
    (g order : List Callback) :
    ∀ hc ∈ handlesOf (threadedRunGroup B event a g order).1,
      hc.error ≠ .exc .keyboardInterrupt ∧ hc.error ≠ .exc .memoryError := by
  intro hc hmem
  rw [threadedRunGroup] at hmem
  simp only [] at hmem
  rw [handlesOf_append, handlesOf_invoke_map, List.nil_append] at hmem
  exact threadedProcess_handles B event a order hc hmem

theorem threadedRunGroup_fatal (B : Behavior) (event : String) (a : CallArgs)
    (g order : List Callback) (x : Exc) :
    (threadedRunGroup B event a g order).2 = some x → x.isThreadFatal = true :=
  fun h => threadedProcess_fatal B event a order x h

theorem threadedDispatch_handles (B : Behavior) (event : String) (a : CallArgs)
    (sched : List Callback → List Callback) :
    ∀ gs : List (List Callback),
      ∀ hc ∈ handlesOf (threadedDispatchEvent B event a sched gs).1,
        hc.error ≠ .exc .keyboardInterrupt ∧ hc.error ≠ .exc .memoryError
  | [] => by simp [threadedDispatchEvent, handlesOf]
  | g :: gs => by
    intro hc hmem
    rw [threadedDispatchEvent] at hmem
    cases hr : (threadedRunGroup B event a g (sched g)).2 with
    | some e =>
      rw [hr] at hmem
      simp only [] at hmem
      exact threadedRunGroup_handles B event a g (sched g) hc hmem
    | none =>
      rw [hr] at hmem
      simp only [] at hmem
      rw [handlesOf_append] at hmem
      rcases List.mem_append.mp hmem with hmem2 | hmem2
      · exact threadedRunGroup_handles B event a g (sched g) hc hmem2
      · exact threadedDispatch_handles B event a sched gs hc hmem2

theorem threadedDispatch_fatal (B : Behavior) (event : String) (a : CallArgs)
    (sched : List Callback → List Callback) :
    ∀ (gs : List (List Callback)) (x : Exc),
      (threadedDispatchEvent B event a sched gs).2 = some x →
        x.isThreadFatal = true
  | [], x => by simp [threadedDispatchEvent]
  | g :: gs, x => by
    intro h
    rw [threadedDispatchEvent] at h
    cases hr : (threadedRunGroup B event a g (sched g)).2 with
    | some e =>
      rw [hr] at h
      simp only [] at h
      exact (Option.some.inj h) ▸ threadedRunGroup_fatal B event a g (sched g) e hr
    | none =>
      rw [hr] at h
      simp only [] at h
      exact threadedDispatch_fatal B event a sched gs x h

theorem threadedDispatch_fatal_of_mem (B : Behavior) (event : String)
    (a : CallArgs) (sched : List Callback → List Callback) :
    ∀ (gs : List (List Callback)) (c : Callback),
      (∀ g ∈ gs, List.Perm (sched g) g) → c ∈ gs.flatten →
      (∃ x, B c = .raise x ∧ x.isThreadFatal = true) →
      (threadedDispatchEvent B event a sched gs).2 ≠ none
  | [], c => by simp
  | g :: gs, c => by
    intro hsched hmem hfatal
    rw [List.flatten_cons] at hmem
    rw [threadedDispatchEvent]
    cases hr : (threadedRunGroup B event a g (sched g)).2 with
    | some e => simp
    | none =>
      rcases List.mem_append.mp hmem with hmem2 | hmem2
      · have hcs : c ∈ sched g :=
          ((hsched g (List.mem_cons_self g gs)).mem_iff).mpr hmem2
        exact absurd hr
          (threadedProcess_fatal_of_mem B event a (sched g) c hcs hfatal)
      · simp only []
        exact threadedDispatch_fatal_of_mem B event a sched gs c
          (fun g2 hg2 => hsched g2 (List.mem_cons_of_mem g hg2)) hmem2 hfatal

/-! ## Blocking-engine claims -/

theorem emit_no_ki (B : Behavior) (s : EventListeners) (event : String)
    (a : EmitArgs)
    (h1 : ∀ c ∈ (s.get_event_callbacks "event").flatten,
      B c ≠ .raise .keyboardInterrupt)
    (h2 : ∀ c ∈ (s.get_event_callbacks event).flatten,
      B c ≠ .raise .keyboardInterrupt) :
    EventBus.emit B s event a =
      (((s.get_event_callbacks "event").flatten.map
          (blockingCbTrace B "event" (.metaPayload event a))).flatten
        ++ ((s.get_event_callbacks event).flatten.map
          (blockingCbTrace B event (.user a))).flatten, none) := by
  rw [EventBus.emit, blockingDispatchEvent_eq_flatten,
    blockingDispatchEvent_eq_flatten,
    blockingRunCallbacks_no_ki B "event" (.metaPayload event a) _ h1,
    blockingRunCallbacks_no_ki B event (.user a) _ h2]

theorem invoke_mem_run_args (B : Behavior) (event : String) (a : CallArgs) :
    ∀ (cs : List Callback) (c : Callback) (aa : CallArgs),
      TraceEv.invoke c aa ∈ (blockingRunCallbacks B event a cs).1 → aa = a
  | [], c, aa => by simp [blockingRunCallbacks]
  | c0 :: cs, c, aa => by
    intro hmem
    cases hB : B c0 with
    | raise e =>
      by_cases he : e.isException = true
      · rw [blockingRunCallbacks, hB] at hmem
        simp only [he, if_true] at hmem
        rcases List.mem_cons.mp hmem with heq | hmem2
        · injection heq with h1 h2
        · rcases List.mem_cons.mp hmem2 with heq2 | hmem3
          · exact absurd heq2 (by simp)
          · exact invoke_mem_run_args B event a cs c aa hmem3
      · have he2 : e.isException = false := by simpa using he
        rw [blockingRunCallbacks, hB] at hmem
        simp only [he2, Bool.false_eq_true, if_false] at hmem
        rcases List.mem_cons.mp hmem with heq | hmem2
        · injection heq with h1 h2
        · simp at hmem2
    | ret t v =>
      rw [blockingRunCallbacks, hB] at hmem
      rcases List.mem_cons.mp hmem with heq | hmem2
      · injection heq with h1 h2
      · exact invoke_mem_run_args B event a cs c aa hmem2
    | awaitable r =>
      rw [blockingRunCallbacks, hB] at hmem
      rcases List.mem_cons.mp hmem with heq | hmem2
      · injection heq with h1 h2
      · exact invoke_mem_run_args B event a cs c aa hmem2

theorem invoke_mem_dispatch_args (B : Behavior) (event : String) (a : CallArgs)
    (gs : List (List Callback)) (c : Callback) (aa : CallArgs) :
    TraceEv.invoke c aa ∈ (blockingDispatchEvent B event a gs).1 → aa = a := by
  rw [blockingDispatchEvent_eq_flatten]
  exact invoke_mem_run_args B event a gs.flatten c aa

/-- **C6.** On the blocking engine, when no callback raises a fatal
exception, `emit` raises nothing to the caller, every callback of every
group of both the meta and the named dispatch is invoked (a raising callback
prevents no later callback), and the error handler is called exactly once
per failing callback, in order, with the original event name, error and
invocation arguments. -/
theorem c6_blocking_error_isolation (B : Behavior) (s : EventListeners)
    (event : String) (a : EmitArgs)
    (hki : ∀ c ∈ (s.get_event_callbacks "event").flatten
        ++ (s.get_event_callbacks event).flatten,
      B c ≠ .raise .keyboardInterrupt) :
    (EventBus.emit B s event a).2 = none ∧
    invokesOf (EventBus.emit B s event a).1 =
      (s.get_event_callbacks "event").flatten.map
          (fun c => (c, CallArgs.metaPayload event a))
        ++ (s.get_event_callbacks event).flatten.map
          (fun c => (c, CallArgs.user a)) ∧
    handlesOf (EventBus.emit B s event a).1 =
      (s.get_event_callbacks "event").flatten.filterMap
          (failCallOf B "event" (.metaPayload event a))
        ++ (s.get_event_callbacks event).flatten.filterMap
          (failCallOf B event (.user a)) := by
  have h1 : ∀ c ∈ (s.get_event_callbacks "event").flatten,
      B c ≠ .raise .keyboardInterrupt :=
    fun c hc => hki c (List.mem_append_left _ hc)
  have h2 : ∀ c ∈ (s.get_event_callbacks event).flatten,
      B c ≠ .raise .keyboardInterrupt :=
    fun c hc => hki c (List.mem_append_right _ hc)
  rw [emit_no_ki B s event a h1 h2]
  refine ⟨rfl, ?_, ?_⟩
  · show invokesOf (_ ++ _) = _
    rw [invokesOf_append, invokesOf_cbTrace_flatten, invokesOf_cbTrace_flatten]
  · show handlesOf (_ ++ _) = _
    rw [handlesOf_append, handlesOf_cbTrace_flatten B "event" _ _ h1,
      handlesOf_cbTrace_flatten B event _ _ h2]

/-- Witness for C6: one failing and one succeeding callback on event `e`. -/
theorem c6_witness :
    (EventBus.emit (fun c => if c.id = 0 then .raise (.error 7) else .ret true 0)
      (applyOps (EventListeners.init 0)
        [.add "e" ⟨0, false⟩ 1, .add "e" ⟨1, false⟩ 2]) "e" ⟨[], []⟩).2 = none ∧
    handlesOf (EventBus.emit
      (fun c => if c.id = 0 then .raise (.error 7) else .ret true 0)
      (applyOps (EventListeners.init 0)
        [.add "e" ⟨0, false⟩ 1, .add "e" ⟨1, false⟩ 2]) "e" ⟨[], []⟩).1 =
      [⟨"e", .exc (.error 7), .user ⟨[], []⟩⟩] := by
  have h := c6_blocking_error_isolation
    (fun c => if c.id = 0 then .raise (.error 7) else .ret true 0)
    (applyOps (EventListeners.init 0)
      [.add "e" ⟨0, false⟩ 1, .add "e" ⟨1, false⟩ 2]) "e" ⟨[], []⟩
    (by intro c hc; by_cases h0 : c.id = 0 <;> simp [h0])
  refine ⟨h.1, ?_⟩
  rw [h.2.2]
  simp [applyOps, applyOp, EventListeners.add_event_callback,
    EventListeners.priorityOf, EventListeners.add_apply, addResultList,
    EventListeners.update_cache, EventListeners.get_event_callbacks, updateFn,
    EventListeners.init, containsListener, removeListener, insort,
    groupByPriority, failCallOf]

/-- **C10.** On the blocking engine, emitting the event literally named
`"event"` invokes every callback registered for `"event"` twice in one
emit: first with the meta payload (the string `"event"` and the packed
arguments), then with the original arguments. -/
theorem c10_emit_event_invokes_twice (B : Behavior) (s : EventListeners)
    (a : EmitArgs)
    (hki : ∀ c ∈ (s.get_event_callbacks "event").flatten,
      B c ≠ .raise .keyboardInterrupt) :
    invokesOf (EventBus.emit B s "event" a).1 =
      (s.get_event_callbacks "event").flatten.map
          (fun c => (c, CallArgs.metaPayload "event" a))
        ++ (s.get_event_callbacks "event").flatten.map
          (fun c => (c, CallArgs.user a)) :=
  (c6_blocking_error_isolation B s "event" a
    (fun c hc => by
      rcases List.mem_append.mp hc with hc2 | hc2 <;> exact hki c hc2)).2.1

/-- Witness for C10: one callback registered for `"event"` is invoked twice,
first with the meta payload, then with the user arguments. -/
theorem c10_witness :
    invokesOf (EventBus.emit (fun _ => .ret true 0)
      (applyOps (EventListeners.init 0) [.add "event" ⟨3, false⟩ 1])
      "event" ⟨[], []⟩).1 =
      [(⟨3, false⟩, CallArgs.metaPayload "event" ⟨[], []⟩),
       (⟨3, false⟩, CallArgs.user ⟨[], []⟩)] := by
  have h := c10_emit_event_invokes_twice (fun _ => .ret true 0)
    (applyOps (EventListeners.init 0) [.add "event" ⟨3, false⟩ 1]) ⟨[], []⟩
    (by intro c hc; simp)
  rw [h]
  simp [applyOps, applyOp, EventListeners.add_event_callback,
    EventListeners.priorityOf, EventListeners.add_apply, addResultList,
    EventListeners.update_cache, EventListeners.get_event_callbacks, updateFn,
    EventListeners.init, containsListener, removeListener, insort,
    groupByPriority]

/-- **C8.** On the blocking and threaded engines, every processed emission
dispatches the synthetic meta-event named `"event"` — whose payload is the
emitted event's name with the packed arguments — to completion before the
named event's dispatch contributes anything to the trace (and if the meta
dispatch is aborted by a fatal exception, the named dispatch never starts);
meta-pass invocations carry the meta payload, named-pass invocations the
original arguments. -/
theorem c8_meta_event_dispatched_first (B : Behavior)
    (sched : List Callback → List Callback) (s : EventListeners)
    (event : String) (a : EmitArgs) :
    (EventBus.emit B s event a).1 =
      (blockingDispatchEvent B "event" (.metaPayload event a)
          (s.get_event_callbacks "event")).1
        ++ (match (blockingDispatchEvent B "event" (.metaPayload event a)
              (s.get_event_callbacks "event")).2 with
            | none => (blockingDispatchEvent B event (.user a)
                (s.get_event_callbacks event)).1
            | some _ => []) ∧
    (∀ c aa, TraceEv.invoke c aa ∈ (blockingDispatchEvent B "event"
        (.metaPayload event a) (s.get_event_callbacks "event")).1 →
      aa = .metaPayload event a) ∧
    (∀ c aa, TraceEv.invoke c aa ∈ (blockingDispatchEvent B event (.user a)
        (s.get_event_callbacks event)).1 → aa = .user a) ∧
    (threadedProcessItem B sched s (event, a)).1 =
      (threadedDispatchEvent B "event" (.metaPayload event a) sched
          (s.get_event_callbacks "event")).1
        ++ (match (threadedDispatchEvent B "event" (.metaPayload event a) sched
              (s.get_event_callbacks "event")).2 with
            | none => (threadedDispatchEvent B event (.user a) sched
                (s.get_event_callbacks event)).1
            | some _ => []) := by
  refine ⟨?_, ?_, ?_, ?_⟩
  · cases hr : (blockingDispatchEvent B "event" (.metaPayload event a)
        (s.get_event_callbacks "event")).2 with
    | some e => simp [EventBus.emit, hr]
    | none => simp [EventBus.emit, hr]
  · exact fun c aa => invoke_mem_dispatch_args B "event" (.metaPayload event a)
      (s.get_event_callbacks "event") c aa
  · exact fun c aa => invoke_mem_dispatch_args B event (.user a)
      (s.get_event_callbacks event) c aa
  · cases hr : (threadedDispatchEvent B "event" (.metaPayload event a) sched
        (s.get_event_callbacks "event")).2 with
    | some e => simp [threadedProcessItem, hr]
    | none => simp [threadedProcessItem, hr]

/-- Witness for C8 at a concrete registry, discharging the
invocation-membership hypothesis of the named-pass argument conjunct. -/
theorem c8_witness :
    CallArgs.user (⟨[], []⟩ : EmitArgs) = CallArgs.user ⟨[], []⟩ := by
  have h := c8_meta_event_dispatched_first (fun _ => .ret true 0) (fun g => g)
    (applyOps (EventListeners.init 0) [.add "x" ⟨7, false⟩ 1]) "x" ⟨[], []⟩
  refine h.2.2.1 ⟨7, false⟩ (CallArgs.user ⟨[], []⟩) ?_
  simp [applyOps, applyOp, EventListeners.add_event_callback,
    EventListeners.priorityOf, EventListeners.add_apply, addResultList,
    EventListeners.update_cache, EventListeners.get_event_callbacks, updateFn,
    EventListeners.init, containsListener, removeListener, insort,
    groupByPriority, blockingDispatchEvent, blockingRunCallbacks]

/-- Counterexample for C3 as stated: on the blocking engine a callback
raising `MemoryError` does NOT propagate — the dispatch completes
(`fatal = none`) and the error is routed to the error handler, contradicting
"such exceptions are never routed to the error handler" and "causes that
exception to propagate immediately out of the dispatch". -/
theorem c3_counterexample :
    (blockingDispatchEvent (fun _ => .raise .memoryError) "e" (.user ⟨[], []⟩)
      [[⟨0, false⟩]]).2 = none ∧
    handlesOf (blockingDispatchEvent (fun _ => .raise .memoryError) "e"
      (.user ⟨[], []⟩) [[⟨0, false⟩]]).1 =
      [⟨"e", .exc .memoryError, .user ⟨[], []⟩⟩] := by
  exact ⟨rfl, rfl⟩

/-- **C3 (amended).** `KeyboardInterrupt` is never intercepted on any
engine: it is never routed to the error handler, it is the only exception an
escaping blocking/async dispatch can carry, and its presence aborts the
dispatch (on the blocking engine: immediately, abandoning the remaining
callbacks and groups).  `MemoryError`, however, propagates only on the
threaded engine (whose dispatch re-raises both and never routes either to
the handler); the blocking and cooperative engines catch `MemoryError` via
`except Exception` and route it to the error handler instead. -/
theorem c3_fatal_exception_propagation (B : Behavior) (event : String)
    (a : CallArgs) (gs : List (List Callback))
    (sched : List Callback → List Callback) :
    (∀ hc ∈ handlesOf (blockingDispatchEvent B event a gs).1,
      hc.error ≠ .exc .keyboardInterrupt) ∧
    (∀ x, (blockingDispatchEvent B event a gs).2 = some x →
      x = .keyboardInterrupt) ∧
    (∀ pre c post, gs.flatten = pre ++ c :: post →
      (∀ c2 ∈ pre, B c2 ≠ .raise .keyboardInterrupt) →
      B c = .raise .keyboardInterrupt →
      blockingDispatchEvent B event a gs =
        ((pre.map (blockingCbTrace B event a)).flatten ++ [.invoke c a],
          some .keyboardInterrupt)) ∧
    ((∀ c ∈ gs.flatten, B c ≠ .raise .keyboardInterrupt) →
      blockingDispatchEvent B event a gs =
        ((gs.flatten.map (blockingCbTrace B event a)).flatten, none)) ∧
    ((∀ c ∈ gs.flatten, B c ≠ .raise .keyboardInterrupt) →
      ∀ c ∈ gs.flatten, B c = .raise .memoryError →
      (⟨event, .exc .memoryError, a⟩ : HandlerCall) ∈
        handlesOf (blockingDispatchEvent B event a gs).1) ∧
    (∀ hc ∈ handlesOf (threadedDispatchEvent B event a sched gs).1,
      hc.error ≠ .exc .keyboardInterrupt ∧ hc.error ≠ .exc .memoryError) ∧
    (∀ x, (threadedDispatchEvent B event a sched gs).2 = some x →
      x.isThreadFatal = true) ∧
    ((∀ g ∈ gs, List.Perm (sched g) g) →
      (∃ c ∈ gs.flatten, B c = .raise .keyboardInterrupt ∨
        B c = .raise .memoryError) →
      (threadedDispatchEvent B event a sched gs).2 ≠ none) ∧
    (∀ hc ∈ handlesOf (asyncDispatchEvent B event a gs).1,
      hc.error ≠ .exc .keyboardInterrupt) ∧
    (∀ x, (asyncDispatchEvent B event a gs).2 = some x →
      x = .keyboardInterrupt) ∧
    ((∃ c ∈ gs.flatten, B c = .raise .keyboardInterrupt) →
      (asyncDispatchEvent B event a gs).2 ≠ none) ∧
    ((∀ c ∈ gs.flatten, B c ≠ .raise .keyboardInterrupt) →
      ∀ c ∈ gs.flatten,
      (B c = .raise .memoryError ∨ B c = .awaitable (.raise .memoryError)) →
      (⟨event, .exc .memoryError, a⟩ : HandlerCall) ∈
        handlesOf (asyncDispatchEvent B event a gs).1) := by
  refine ⟨?_, ?_, ?_, ?_, ?_, ?_, ?_, ?_, ?_, ?_, ?_, ?_⟩
  · intro hc hmem
    rw [blockingDispatchEvent_eq_flatten] at hmem
    exact handlesOf_run_ne_ki B event a gs.flatten hc hmem
  · intro x h
    rw [blockingDispatchEvent_eq_flatten] at h
    exact blockingRun_fatal_ki B event a gs.flatten x h
  · intro pre c post hsplit hpre hki
    rw [blockingDispatchEvent_eq_flatten, hsplit]
    exact blockingRunCallbacks_ki B event a c hki pre post hpre
  · intro h
    rw [blockingDispatchEvent_eq_flatten]
    exact blockingRunCallbacks_no_ki B event a gs.flatten h
  · intro h c hmem hme
    rw [blockingDispatchEvent_eq_flatten,
      blockingRunCallbacks_no_ki B event a gs.flatten h]
    rw [show ((gs.flatten.map (blockingCbTrace B event a)).flatten,
      (none : Option Exc)).1 =
      (gs.flatten.map (blockingCbTrace B event a)).flatten from rfl]
    rw [handlesOf_cbTrace_flatten B event a gs.flatten h]
    rw [List.mem_filterMap]
    exact ⟨c, hmem, by rw [failCallOf, hme]⟩
  · exact threadedDispatch_handles B event a sched gs
  · exact threadedDispatch_fatal B event a sched gs
  · intro hsched hex
    rcases hex with ⟨c, hmem, hfatal⟩
    refine threadedDispatch_fatal_of_mem B event a sched gs c hsched hmem ?_
    rcases hfatal with hf | hf
    · exact ⟨.keyboardInterrupt, hf, rfl⟩
    · exact ⟨.memoryError, hf, rfl⟩
  · exact asyncDispatch_handles_ne_ki B event a gs
  · exact asyncDispatch_fatal_ki B event a gs
  · intro hex
    rcases hex with ⟨c, hmem, hki⟩
    exact asyncDispatch_fatal_of_mem B event a gs c hmem hki
  · intro h c hmem hme
    rw [asyncDispatch_no_ki B event a gs h]
    rw [show ((gs.map (fun g => g.map (fun c => TraceEv.invoke c a)
      ++ (asyncGroupErrors B g).map
        (fun er => TraceEv.handle ⟨event, er, a⟩))).flatten,
      (none : Option Exc)).1 =
      (gs.map (fun g => g.map (fun c => TraceEv.invoke c a)
        ++ (asyncGroupErrors B g).map
          (fun er => TraceEv.handle ⟨event, er, a⟩))).flatten from rfl]
    rw [List.mem_flatten] at hmem
    rcases hmem with ⟨g, hg, hcg⟩
    have hblock : TraceEv.handle ⟨event, .exc .memoryError, a⟩ ∈
        g.map (fun c => TraceEv.invoke c a)
          ++ (asyncGroupErrors B g).map
            (fun er => TraceEv.handle ⟨event, er, a⟩) := by
      refine List.mem_append_right _ ?_
      rw [List.mem_map]
      refine ⟨.exc .memoryError, ?_, rfl⟩
      rw [asyncGroupErrors]
      rcases hme with hsync | hdef
      · refine List.mem_append_left _ ?_
        rw [List.mem_filterMap]
        exact ⟨c, hcg, by rw [syncErrOf, hsync]; rfl⟩
      · refine List.mem_append_right _ ?_
        rw [List.mem_filter]
        refine ⟨?_, rfl⟩
        rw [gatherResults, List.mem_map]
        refine ⟨.raise .memoryError, ?_, rfl⟩
        rw [List.mem_filterMap]
        exact ⟨c, hcg, by rw [awaitOutcomeOf, hdef]⟩
    have htr : TraceEv.handle ⟨event, .exc .memoryError, a⟩ ∈
        (gs.map (fun g => g.map (fun c => TraceEv.invoke c a)
          ++ (asyncGroupErrors B g).map
            (fun er => TraceEv.handle ⟨event, er, a⟩))).flatten := by
      rw [List.mem_flatten]
      exact ⟨_, List.mem_map_of_mem _ hg, hblock⟩
    have : (⟨event, .exc .memoryError, a⟩ : HandlerCall) ∈
        handlesOf ((gs.map (fun g => g.map (fun c => TraceEv.invoke c a)
          ++ (asyncGroupErrors B g).map
            (fun er => TraceEv.handle ⟨event, er, a⟩))).flatten) := by
      rw [handlesOf, List.mem_filterMap]
      exact ⟨_, htr, rfl⟩
    exact this

/-- Witness for C3 (amended): a `MemoryError`-raising callback is routed to
the handler on the blocking engine (dispatch completes), while the threaded
engine's dispatch escapes with an exception. -/
theorem c3_witness :
    (blockingDispatchEvent (fun _ => .raise .memoryError) "e" (.user ⟨[], []⟩)
      [[⟨0, false⟩]]).2 = none ∧
    (⟨"e", .exc .memoryError, .user ⟨[], []⟩⟩ : HandlerCall) ∈
      handlesOf (blockingDispatchEvent (fun _ => .raise .memoryError) "e"
        (.user ⟨[], []⟩) [[⟨0, false⟩]]).1 ∧
    (threadedDispatchEvent (fun _ => .raise .memoryError) "e" (.user ⟨[], []⟩)
      (fun g => g) [[⟨0, false⟩]]).2 ≠ none := by
  have h := c3_fatal_exception_propagation (fun _ => .raise .memoryError) "e"
    (.user ⟨[], []⟩) [[⟨0, false⟩]] (fun g => g)
  have hnoki : ∀ c ∈ ([[(⟨0, false⟩ : Callback)]] :
      List (List Callback)).flatten,
      (fun _ => CbOutcome.raise Exc.memoryError) c ≠ .raise .keyboardInterrupt := by
    intro c hc
    simp
  refine ⟨?_, ?_, ?_⟩
  · rw [h.2.2.2.1 hnoki]
  · exact h.2.2.2.2.1 hnoki ⟨0, false⟩ (by simp) rfl
  · exact h.2.2.2.2.2.2.2.1 (fun g hg => List.Perm.refl g)
      ⟨⟨0, false⟩, by simp, Or.inr rfl⟩

/-- Witness for C9: removing a never-added callback from an empty registry
is a no-op, and delete-on-empty fires for a one-listener event. -/
theorem c9_witness :
    (EventListeners.init 0).remove_event_callback "x" ⟨0, false⟩
        = EventListeners.init 0 ∧
    ((applyOps (EventListeners.init 0)
      [.add "e" ⟨0, false⟩ 1]).remove_event_callback "e"
        ⟨0, false⟩).sorted_listeners "e" = none := by
  have h1 := c9_remove_noop_and_cleanup 0 [] "x" ⟨0, false⟩
  have h2 := c9_remove_noop_and_cleanup 0 [.add "e" ⟨0, false⟩ 1] "e" ⟨0, false⟩
  refine ⟨h1.1 (by simp [applyOps, EventListeners.init]), ?_⟩
  refine (h2.2.1 [⟨⟨0, false⟩, 1⟩] ?_ ?_).1
  · simp [applyOps, applyOp, EventListeners.add_event_callback,
      EventListeners.priorityOf, EventListeners.add_apply, addResultList,
      EventListeners.update_cache, updateFn, EventListeners.init,
      containsListener, insort]
  · simp [removeListener]

/-- **C5 (code behaviour at the failing input).** On the cooperative engine
a deferred callback that completes WITHOUT raising, returning the truthy
value `42`, is nevertheless forwarded to the error handler: the group's
`errors` list is built with `filter(None, results)`, which keeps every
truthy gathered result, not only exceptions.  The dispatch completes
normally and the handler receives the plain value. -/
theorem c5_success_value_forwarded_to_handler :
    ((fun _ => CbOutcome.awaitable (.ret true 42)) (⟨0, false⟩ : Callback) =
      .awaitable (.ret true 42)) ∧
    (asyncDispatchEvent (fun _ => .awaitable (.ret true 42)) "e"
      (.user ⟨[], []⟩) [[⟨0, false⟩]]).2 = none ∧
    handlesOf (asyncDispatchEvent (fun _ => .awaitable (.ret true 42)) "e"
      (.user ⟨[], []⟩) [[⟨0, false⟩]]).1 =
      [⟨"e", .val true 42, .user ⟨[], []⟩⟩] := by
  exact ⟨rfl, rfl, rfl⟩

/-- **C4.** `AbstractEventBus.add_event_callback` (the add path shared by
the blocking and threaded engines in `events/abc/bus.py`) raises a
`TypeError` exactly when the callback is a coroutine function or the
supplied priority is not an `int`; otherwise it succeeds, returning the
registry with the listener applied (the priority is validated before any
state is produced, and an omitted priority takes the configured default). -/
theorem c4_add_type_error_iff (s : EventListeners) (event : String)
    (cb : Callback) :
    (∀ prio : PyPriority,
      ((∃ msg, AbstractEventBus.add_event_callback s event cb prio =
          .error msg) ↔
        (cb.isCoroutineFunction = true ∨ ∃ t, prio = .nonInt t))) ∧
    (cb.isCoroutineFunction = false → ∀ n : Int,
      AbstractEventBus.add_event_callback s event cb (.int n) =
        .ok (s.add_apply event cb n)) ∧
    (cb.isCoroutineFunction = false →
      AbstractEventBus.add_event_callback s event cb .omitted =
        .ok (s.add_apply event cb s.default_priority)) := by
  refine ⟨?_, ?_, ?_⟩
  · intro prio
    constructor
    · rintro ⟨msg, hmsg⟩
      by_cases hco : cb.isCoroutineFunction = true
      · exact Or.inl hco
      · rw [AbstractEventBus.add_event_callback, if_neg hco] at hmsg
        cases prio with
        | omitted =>
          rw [EventListeners.add_event_callback] at hmsg
          simp [EventListeners.priorityOf] at hmsg
        | int n =>
          rw [EventListeners.add_event_callback] at hmsg
          simp [EventListeners.priorityOf] at hmsg
        | nonInt t => exact Or.inr ⟨t, rfl⟩
    · rintro (hco | ⟨t, rfl⟩)
      · exact ⟨_, by rw [AbstractEventBus.add_event_callback, if_pos hco]⟩
      · by_cases hco : cb.isCoroutineFunction = true
        · exact ⟨_, by rw [AbstractEventBus.add_event_callback, if_pos hco]⟩
        · exact ⟨"Priority must be an int, not " ++ t,
            by rw [AbstractEventBus.add_event_callback, if_neg hco]; rfl⟩
  · intro hco n
    rw [AbstractEventBus.add_event_callback, if_neg (by simp [hco])]
    rfl
  · intro hco
    rw [AbstractEventBus.add_event_callback, if_neg (by simp [hco])]
    rfl

/-- Witness for C4: a coroutine-function callback and a non-`int` priority
are rejected; a plain callback with an `int` priority is accepted. -/
theorem c4_witness :
    (∃ msg, AbstractEventBus.add_event_callback (EventListeners.init 0) "e"
      ⟨0, true⟩ (.int 1) = .error msg) ∧
    AbstractEventBus.add_event_callback (EventListeners.init 0) "e"
      ⟨0, false⟩ (.int 1) =
        .ok ((EventListeners.init 0).add_apply "e" ⟨0, false⟩ 1) ∧
    (∃ msg, AbstractEventBus.add_event_callback (EventListeners.init 0) "e"
      ⟨0, false⟩ (.nonInt "str") = .error msg) := by
  have h1 := c4_add_type_error_iff (EventListeners.init 0) "e" ⟨0, true⟩
  have h2 := c4_add_type_error_iff (EventListeners.init 0) "e" ⟨0, false⟩
  exact ⟨(h1.1 (.int 1)).mpr (Or.inl rfl), h2.2.1 rfl 1,
    (h2.1 (.nonInt "str")).mpr (Or.inr ⟨"str", rfl⟩)⟩

/-- **C7.** On the threaded engine, `emit` while the bus is stopped changes
no state: it returns silently (no error), enqueues nothing and invokes no
callback — the whole bus state, in particular the dispatch queue and the
registry, is unchanged. -/
theorem c7_threaded_emit_stopped_noop (bus : ThreadedEventBus) (event : String)
    (a : EmitArgs) (h : bus.is_running = false) :
    ThreadedEventBus.emit bus event a = bus ∧
    (ThreadedEventBus.emit bus event a).dispatch_queue = bus.dispatch_queue ∧
    (ThreadedEventBus.emit bus event a).listeners = bus.listeners := by
  have heq : ThreadedEventBus.emit bus event a = bus := by
    rw [ThreadedEventBus.emit, if_neg (by simp [h])]
  exact ⟨heq, by rw [heq], by rw [heq]⟩

/-- Witness for C7: a concrete stopped bus is returned unchanged. -/
theorem c7_witness :
    ThreadedEventBus.emit ⟨EventListeners.init 0, [], false⟩ "x" ⟨[], []⟩ =
      (⟨EventListeners.init 0, [], false⟩ : ThreadedEventBus) :=
  (c7_threaded_emit_stopped_noop ⟨EventListeners.init 0, [], false⟩ "x"
    ⟨[], []⟩ rfl).1

end MsgEventBus
